import Mathlib

/-!
# SchemaIPC: a shallow embedding of the schema-driven binary IPC codec

This file embeds the Go sources of the SchemaIPC repository in Lean 4:

* `Schema`   — the schema model and descriptor registry (`schema/schema.go`),
* `Encoder`  — the writer/encoder (`encoder` package, `Encode`/`encodeStruct`/
  `encodeSingle`) and the descriptor-carrying reflect-based reader/decoder
  (`Reader.Decode`/`decodeStruct`/`decodeSingle`/`setBytes`),
* `Exp`      — the experimental unsafe-pointer decoder (`exp/encoder/decode.go`),
* `Ipc`      — the framed-connection state machine (`Conn.nextMessage`).

Go machine integers are modelled as `Nat`/`Int` with explicit `% 2^w`
where the code truncates.  Byte buffers are `List Nat` whose elements are
produced `< 256` by construction.  Fallible code returns `Except`, or a
state/error pair where the Go code mutates its receiver before failing.
Go records handled through `reflect` are modelled as association lists
from protocol tag to a `Value`; the Go struct's field kinds are carried by
the `Value` constructors (integer slots, byte-slice slots, nested structs,
slices).
-/

/-- Little-endian byte list of width `width` for natural `n`
(each byte is `n / 256^i % 256`, so the value is implicitly `n % 2^(8*width)`,
matching Go's integer truncation on `AppendUintNN`). -/
def leBytes (width : Nat) (n : Nat) : List Nat :=
  (List.range width).map (fun i => n / 256 ^ i % 256)

/-- Value of a little-endian byte list (first byte least significant),
matching Go's `binary.LittleEndian.UintNN`. -/
def leVal (bs : List Nat) : Nat :=
  bs.foldr (fun b acc => b + 256 * acc) 0

/-- Two's-complement unsigned image of an `Int` at width `w` bits:
Go's `uint64(x)` / `uint32(int32(x))` etc. -/
def toUnsigned (w : Nat) (i : Int) : Nat :=
  (i % ((2 : Int) ^ w)).toNat

/-- Two's-complement signed read-back of `n < 2^w` at width `w` bits:
Go's `intNN(binary.LittleEndian.UintNN(b))`. -/
def toSigned (w : Nat) (n : Nat) : Int :=
  if n < 2 ^ (w - 1) then (n : Int) else (n : Int) - (2 : Int) ^ w

/-- Association-list lookup, modelling Go map indexing `m[k]`. -/
def mapLookup {α : Type} (m : List (String × α)) (k : String) : Option α :=
  match m with
  | [] => Option.none
  | (k', v) :: rest => if k' = k then Option.some v else mapLookup rest k

/-- Association-list lookup with `Nat` keys, modelling Go map indexing. -/
def natLookup {α : Type} (m : List (Nat × α)) (k : Nat) : Option α :=
  match m with
  | [] => Option.none
  | (k', v) :: rest => if k' = k then Option.some v else natLookup rest k

/-- Association-list insert, modelling Go map assignment `m[k] = v`
(replaces an existing binding, otherwise appends). -/
def mapInsert {α : Type} (m : List (String × α)) (k : String) (v : α) :
    List (String × α) :=
  match m with
  | [] => [(k, v)]
  | (k', v') :: rest =>
    if k' = k then (k', v) :: rest else (k', v') :: mapInsert rest k v

/-- Association-list insert with `Nat` keys (Go `m[k] = v`). -/
def natInsert {α : Type} (m : List (Nat × α)) (k : Nat) (v : α) :
    List (Nat × α) :=
  match m with
  | [] => [(k, v)]
  | (k', v') :: rest =>
    if k' = k then (k', v) :: rest else (k', v') :: natInsert rest k v

namespace Schema

/-- `schema.MessageDirection` (`schema/schema.go`). -/
inductive MessageDirection where
  | inbound
  | outbound
  | duplex
deriving DecidableEq

/-- `MessageDirection.ToString` (`schema/schema.go`). -/
def MessageDirection.ToString : MessageDirection → String
  | .inbound => "inbound"
  | .outbound => "outbound"
  | .duplex => "duplex"

/-- `schema.FieldType` (`schema/schema.go`, the eleven-tag variant that the
codec uses; the file also contains a duplicate nine-tag declaration). -/
inductive FieldType where
  | fixedBinary
  | dynamicBinary
  | longBinary
  | uint64T
  | int64T
  | uint32T
  | int32T
  | uint16T
  | int16T
  | objectT
  | arrayT
deriving DecidableEq

mutual
/-- The dynamic values stored in the untyped `Extra any` slot of a Go
`MessageField`: Go `nil`, an `int` (FixedBinary length), a
`schema.MessageDescriptor` (Object, and the decoder's Array-of-struct
case), a `schema.MessageField` (Array item spec), or a
`schema.SchemaMessage` (the encoder's Array-of-struct case). -/
inductive Extra where
  | nilEx : Extra
  | intEx : Nat → Extra
  | descEx : MessageDescriptor → Extra
  | fieldEx : MessageField → Extra
  | msgEx : SchemaMessage → Extra

/-- `schema.MessageField`: name, type, extra, optional. -/
inductive MessageField where
  | mk : String → FieldType → Extra → Bool → MessageField

/-- `schema.SchemaMessage`: direction, name, fields. -/
inductive SchemaMessage where
  | mk : MessageDirection → String → List MessageField → SchemaMessage

/-- `schema.MessageDescriptor`: ID, message, optional count, internal flag.
The opaque `Handler interface{}` callback is modelled by its presence bit
(`hasHandler`); registration always stores `nil` handlers, and the
connection loop only branches on `Handler == nil`. -/
inductive MessageDescriptor where
  | mk : Nat → SchemaMessage → Nat → Bool → Bool → MessageDescriptor
end

def MessageField.name : MessageField → String
  | .mk n _ _ _ => n

def MessageField.type : MessageField → FieldType
  | .mk _ t _ _ => t

def MessageField.extra : MessageField → Extra
  | .mk _ _ e _ => e

def MessageField.optional : MessageField → Bool
  | .mk _ _ _ o => o

def SchemaMessage.direction : SchemaMessage → MessageDirection
  | .mk d _ _ => d

def SchemaMessage.name : SchemaMessage → String
  | .mk _ n _ => n

def SchemaMessage.fields : SchemaMessage → List MessageField
  | .mk _ _ fs => fs

def MessageDescriptor.id : MessageDescriptor → Nat
  | .mk i _ _ _ _ => i

def MessageDescriptor.message : MessageDescriptor → SchemaMessage
  | .mk _ m _ _ _ => m

def MessageDescriptor.optionalCount : MessageDescriptor → Nat
  | .mk _ _ c _ _ => c

def MessageDescriptor.internal : MessageDescriptor → Bool
  | .mk _ _ _ i _ => i

def MessageDescriptor.hasHandler : MessageDescriptor → Bool
  | .mk _ _ _ _ h => h

/-- `SchemaMessage.CountOptional` (`schema/schema.go`). -/
def countOptionalFields : List MessageField → Nat
  | [] => 0
  | f :: rest => (if f.optional then 1 else 0) + countOptionalFields rest

def SchemaMessage.CountOptional (m : SchemaMessage) : Nat :=
  countOptionalFields m.fields

/-- `MessageDescriptor.OptFlagLength` (`schema/schema.go`):
`count := OptionalCount >> 3; if OptionalCount & 7 != 0 { count++ }`. -/
def MessageDescriptor.OptFlagLength (m : MessageDescriptor) : Nat :=
  let count := m.optionalCount / 8
  if m.optionalCount % 8 ≠ 0 then count + 1 else count

/-- `schema.Schema`. -/
structure Schema where
  messages : List SchemaMessage

/-- `schema.InternalSchema` (`schema/schema.go`): inbound Hello, outbound
Hello, duplex Ping, in that order. -/
def InternalSchema : Schema :=
  { messages :=
      [ .mk .inbound "Hello"
          [ .mk "minVersion" .int32T .nilEx false,
            .mk "currVersion" .int32T .nilEx false ],
        .mk .outbound "Hello"
          [ .mk "minVersion" .int32T .nilEx false,
            .mk "currVersion" .int32T .nilEx false,
            .mk "schema" .longBinary .nilEx false,
            .mk "descriptorRegistry" .longBinary .nilEx false ],
        .mk .duplex "Ping"
          [ .mk "timestamp" .int64T .nilEx false ] ] }

/-- `schema.MessageDescriptorRegistry`. The Go maps are modelled as
association lists with Go-map insert/lookup semantics. -/
structure Registry where
  idCounter : Nat
  RegisteredUser : Bool
  RegisteredInternal : Bool
  Descriptors : List (Nat × MessageDescriptor)
  UserSignatureMap : List (String × Nat)
  InternalSignatureMap : List (String × Nat)

/-- The zero-value registry (fresh `MessageDescriptorRegistry`); the lazy
`ensureDescriptors` allocation of the Go maps is invisible in the list
model, where the maps start empty. -/
def Registry.empty : Registry :=
  { idCounter := 0, RegisteredUser := false, RegisteredInternal := false,
    Descriptors := [], UserSignatureMap := [], InternalSignatureMap := [] }

/-- Registry-layer errors (`ErrAlreadyRegistered`, `ErrInternalNotRegistered`,
and the dynamic duplicate-signature error of `registerSignature`). -/
inductive RegErr where
  | alreadyRegistered
  | internalNotRegistered
  | duplicateSignature (signature : String)
deriving DecidableEq

/-- `registerSignature` (`schema/schema.go`): renders `"<direction> <name>"`,
fails on an existing entry, otherwise inserts.  The map is mutated in
place in Go, so the (possibly updated) map is returned together with the
error slot. -/
def registerSignature (signatureMap : List (String × Nat))
    (direction : MessageDirection) (name : String) (id : Nat) :
    List (String × Nat) × Option RegErr :=
  let signature := direction.ToString ++ " " ++ name
  match mapLookup signatureMap signature with
  | Option.some _ => (signatureMap, Option.some (.duplicateSignature signature))
  | Option.none => (mapInsert signatureMap signature id, Option.none)

/-- `handleSignatures` (`schema/schema.go`): a Duplex message registers both
the inbound and the outbound signature (the inbound insertion persists
even if the outbound one then fails); otherwise only its own direction. -/
def handleSignatures (signatureMap : List (String × Nat))
    (message : SchemaMessage) (id : Nat) :
    List (String × Nat) × Option RegErr :=
  if message.direction = .duplex then
    match registerSignature signatureMap .inbound message.name id with
    | (m, Option.some e) => (m, Option.some e)
    | (m, Option.none) => registerSignature m .outbound message.name id
  else
    registerSignature signatureMap message.direction message.name id

/-- The per-message loop body shared by `RegisterSchema` and
`RegisterInternal`: assign `idCounter` as the ID, advance the counter,
insert the descriptor (with a `nil` handler), then register signatures;
a signature error aborts the loop but keeps all mutations made so far. -/
def registerLoop (internal : Bool)
    (descriptors : List (Nat × MessageDescriptor))
    (signatureMap : List (String × Nat)) (idCounter : Nat) :
    List SchemaMessage →
    List (Nat × MessageDescriptor) × List (String × Nat) × Nat × Option RegErr
  | [] => (descriptors, signatureMap, idCounter, Option.none)
  | message :: rest =>
    let id := idCounter
    let descriptors := natInsert descriptors id
      (.mk id message message.CountOptional internal false)
    match handleSignatures signatureMap message id with
    | (m, Option.some e) => (descriptors, m, id + 1, Option.some e)
    | (m, Option.none) => registerLoop internal descriptors m (id + 1) rest

/-- `MessageDescriptorRegistry.RegisterSchema` (`schema/schema.go`).
Returns the (possibly partially mutated) registry together with the error
slot, since the Go method mutates its receiver before it can fail. -/
def Registry.RegisterSchema (r : Registry) (schema : Schema) :
    Registry × Option RegErr :=
  if r.RegisteredUser then (r, Option.some .alreadyRegistered)
  else if !r.RegisteredInternal then (r, Option.some .internalNotRegistered)
  else
    match registerLoop false r.Descriptors r.UserSignatureMap r.idCounter
        schema.messages with
    | (descs, sigs, counter, Option.some e) =>
      ({ r with Descriptors := descs, UserSignatureMap := sigs,
                idCounter := counter }, Option.some e)
    | (descs, sigs, counter, Option.none) =>
      ({ r with Descriptors := descs, UserSignatureMap := sigs,
                idCounter := counter, RegisteredUser := true }, Option.none)

/-- `MessageDescriptorRegistry.RegisterInternal` (`schema/schema.go`). -/
def Registry.RegisterInternal (r : Registry) : Registry × Option RegErr :=
  if r.RegisteredInternal || r.RegisteredUser then
    (r, Option.some .alreadyRegistered)
  else
    match registerLoop true r.Descriptors r.InternalSignatureMap r.idCounter
        InternalSchema.messages with
    | (descs, sigs, counter, Option.some e) =>
      ({ r with Descriptors := descs, InternalSignatureMap := sigs,
                idCounter := counter }, Option.some e)
    | (descs, sigs, counter, Option.none) =>
      ({ r with Descriptors := descs, InternalSignatureMap := sigs,
                idCounter := counter, RegisteredInternal := true },
       Option.none)

end Schema

/-! ## Record values

Go records are structs handled through `reflect` (or raw pointers in the
`exp` decoder).  A record is modelled as an association list from the
`ipc` struct-tag (the protocol name) to the slot's current `Value`; the
`Value` constructor plays the role of the slot's `reflect.Kind`
(`bytes` = byte slice, `uintV` = unsigned integer kinds, `intV` = signed
integer kinds, `structV` = nested struct, `arrayV` = slice of items).
Go's byte-array and string slot kinds are not represented; no claim
depends on them. -/

inductive Value where
  | bytes : List Nat → Value
  | uintV : Nat → Value
  | intV : Int → Value
  | structV : List (String × Value) → Value
  | arrayV : List Value → Value

mutual
/-- `reflect.Value.IsZero` on the slot kinds of the model: zero integers,
nil (modelled: empty) slices, structs with all slots zero. -/
def Value.isZero : Value → Bool
  | .bytes bs => bs.isEmpty
  | .uintV n => n == 0
  | .intV i => i == 0
  | .structV slots => slotsZero slots
  | .arrayV items => items.isEmpty

def slotsZero : List (String × Value) → Bool
  | [] => true
  | (_, v) :: rest => v.isZero && slotsZero rest
end

/-- The duplicate-tag check of `computeFieldMap` (both `encoder` variants):
walking the tagged fields fails as soon as a tag is already in the map. -/
def hasDupNames : List (String × Value) → Bool
  | [] => false
  | (n, _) :: rest => (mapLookup rest n).isSome || hasDupNames rest

/-- Zero `Value` of the Go slot type matching a field type, as produced by
`reflect.MakeSlice` for array elements.  (The Go element type comes from
the record's static type, which the model does not carry; this mirrors it
for the well-shaped records the codec is used with.) -/
def zeroValueOf : Schema.FieldType → Value
  | .fixedBinary | .dynamicBinary | .longBinary => .bytes []
  | .uint64T | .uint32T | .uint16T => .uintV 0
  | .int64T | .int32T | .int16T => .intV 0
  | .objectT => .structV []
  | .arrayT => .arrayV []

namespace Encoder

open Schema

/-- The error values of the `encoder` package (`Err*` variables of the
writer and reader files).  `assertPanic` models a failed Go type
assertion or a `reflect` kind panic (recovered into an error by
`Encode`, a crash in `Decode`); `fuelOut` is the recursion-depth bound of
the embedding and is never returned for any actual run with enough
fuel. -/
inductive EErr where
  | requiredNotPresent
  | wrongLen
  | lenTooBig16
  | lenTooBig32
  | arrLenTooBig
  | outOfBounds
  | optionalCorrupted
  | typeCorrupted
  | invalidResultObject
  | invalidResultPointer
  | invalidByteKind
  | duplicateTag
  | assertPanic
  | fuelOut
deriving DecidableEq

/-- `encoder.Writer`: an append buffer plus the `pos` watermark (only
`GrowBytes` advances `pos`; the plain `append`s do not). -/
structure Writer where
  buffer : List Nat
  pos : Nat

/-- `Writer.GrowBytes`: returns the old `pos` and reslices the buffer to
`pos + n` (`slices.Grow(buffer, n)[:newPos]`).  Note the Go code reslices
relative to `pos`, not to `len(buffer)`: bytes appended since the last
`GrowBytes` sit above `pos` and are cut off (fresh capacity reads as
zero). -/
def Writer.GrowBytes (w : Writer) (n : Nat) : Nat × Writer :=
  let newPos := w.pos + n
  (w.pos,
   { buffer :=
       w.buffer.take newPos ++
         List.replicate (newPos - min w.buffer.length newPos) 0,
     pos := newPos })

/-- `Writer.SetOpt`: set bit `opt % 8` of byte `offset + opt / 8`.
(Go indexing panics out of range; `List.set` is a no-op there, but every
call site is guarded by the optional-counter check.) -/
def Writer.SetOpt (w : Writer) (opt offset : Nat) : Writer :=
  let bytePos := offset + opt / 8
  let bitMask := 1 <<< (opt % 8)
  { w with buffer := w.buffer.set bytePos (w.buffer.getD bytePos 0 ||| bitMask) }

mutual
/-- `Writer.encodeStruct` (`encoder` package): kind check, field map,
bitmap reservation, then the field walk.  `fuel` bounds the recursion
depth of the Go call tree and is threaded structurally. -/
def encodeStruct : Nat → Writer → MessageDescriptor → Value → Except EErr Writer
  | 0, _, _, _ => .error .fuelOut
  | fuel + 1, w, descriptor, v =>
    match v with
    | .structV slots =>
      if hasDupNames slots then .error .duplicateTag
      else
        let optBytes := descriptor.OptFlagLength
        let grown := w.GrowBytes optBytes
        encodeFieldLoop fuel grown.2 optBytes grown.1 0 slots
          descriptor.message.fields
    | _ => .error .invalidResultPointer

/-- The `for _, field := range descriptor.Message.Fields` loop of
`encodeStruct`: resolve the slot, treat a zero slot as absent, check the
optional counter against `optBytes` (the bitmap length in bytes), set
the presence bit, and encode present fields. -/
def encodeFieldLoop : Nat → Writer → Nat → Nat → Nat →
    List (String × Value) → List MessageField → Except EErr Writer
  | 0, _, _, _, _, _, _ => .error .fuelOut
  | _ + 1, w, _, _, _, _, [] => .ok w
  | fuel + 1, w, optBytes, optListOffset, optCounter, slots, field :: rest =>
    let fOpt := mapLookup slots field.name
    let present := match fOpt with
      | Option.some fv => !fv.isZero
      | Option.none => false
    if field.optional then
      if optCounter ≥ optBytes then .error .optionalCorrupted
      else if present then
        match encodeSingle fuel (w.SetOpt optCounter optListOffset) field fOpt with
        | .error e => .error e
        | .ok w' =>
          encodeFieldLoop fuel w' optBytes optListOffset (optCounter + 1)
            slots rest
      else
        encodeFieldLoop fuel w optBytes optListOffset (optCounter + 1)
          slots rest
    else
      match encodeSingle fuel w field fOpt with
      | .error e => .error e
      | .ok w' =>
        encodeFieldLoop fuel w' optBytes optListOffset optCounter slots rest

/-- `Writer.encodeSingle` (`encoder` package).  `f = none` models the
invalid `reflect.Value{}` of an unbound field. -/
def encodeSingle : Nat → Writer → MessageField → Option Value →
    Except EErr Writer
  | 0, _, _, _ => .error .fuelOut
  | fuel + 1, w, field, f =>
    match f with
    | Option.none => .error .requiredNotPresent
    | Option.some fv =>
      match field.type with
      | .fixedBinary =>
        match field.extra with
        | .intEx expectedLen =>
          match fv with
          | .bytes bs =>
            if bs.length ≠ expectedLen then .error .wrongLen
            else .ok { w with buffer := w.buffer ++ bs }
          | _ => .error .assertPanic
        | _ => .error .assertPanic
      | .dynamicBinary =>
        match fv with
        | .bytes bs =>
          if bs.length > 65535 then .error .lenTooBig16
          else .ok { w with buffer := w.buffer ++ leBytes 2 bs.length ++ bs }
        | _ => .error .assertPanic
      | .longBinary =>
        match fv with
        | .bytes bs =>
          if bs.length > 4294967295 then .error .lenTooBig32
          else .ok { w with buffer := w.buffer ++ leBytes 4 bs.length ++ bs }
        | _ => .error .assertPanic
      | .uint64T =>
        match fv with
        | .uintV n => .ok { w with buffer := w.buffer ++ leBytes 8 n }
        | _ => .error .assertPanic
      | .int64T =>
        match fv with
        | .intV i =>
          .ok { w with buffer := w.buffer ++ leBytes 8 (toUnsigned 64 i) }
        | _ => .error .assertPanic
      | .uint32T =>
        match fv with
        | .uintV n => .ok { w with buffer := w.buffer ++ leBytes 4 n }
        | _ => .error .assertPanic
      | .int32T =>
        match fv with
        | .intV i =>
          .ok { w with buffer := w.buffer ++ leBytes 4 (toUnsigned 32 i) }
        | _ => .error .assertPanic
      | .uint16T =>
        match fv with
        | .uintV n => .ok { w with buffer := w.buffer ++ leBytes 2 n }
        | _ => .error .assertPanic
      | .int16T =>
        match fv with
        | .intV i =>
          .ok { w with buffer := w.buffer ++ leBytes 2 (toUnsigned 16 i) }
        | _ => .error .assertPanic
      | .objectT =>
        match field.extra with
        | .descEx subFields => encodeStruct fuel w subFields fv
        | _ => .error .assertPanic
      | .arrayT =>
        match fv with
        | .arrayV items =>
          if items.length > 65535 then .error .arrLenTooBig
          else
            let w' := { w with buffer := w.buffer ++ leBytes 2 items.length }
            match field.extra with
            | .fieldEx e => encodeItemsField fuel w' e items
            | .msgEx e =>
              encodeItemsStruct fuel w'
                (.mk 0 e e.CountOptional false false) items
            | _ => .ok w'
        | _ => .error .assertPanic

/-- The item loop of the array case with a `schema.MessageField` item
spec. -/
def encodeItemsField : Nat → Writer → MessageField → List Value →
    Except EErr Writer
  | 0, _, _, _ => .error .fuelOut
  | _ + 1, w, _, [] => .ok w
  | fuel + 1, w, e, item :: rest =>
    match encodeSingle fuel w e (Option.some item) with
    | .error err => .error err
    | .ok w' => encodeItemsField fuel w' e rest

/-- The item loop of the array case with a `schema.SchemaMessage` item
spec. -/
def encodeItemsStruct : Nat → Writer → MessageDescriptor → List Value →
    Except EErr Writer
  | 0, _, _, _ => .error .fuelOut
  | _ + 1, w, _, [] => .ok w
  | fuel + 1, w, desc, item :: rest =>
    match encodeStruct fuel w desc item with
    | .error err => .error err
    | .ok w' => encodeItemsStruct fuel w' desc rest
end

/-- `encoder.Encode`: kind check, fresh writer, `encodeStruct`, return the
accumulated buffer (panics are recovered into errors; the model's
`assertPanic` error plays that role). -/
def Encode (fuel : Nat) (descriptor : MessageDescriptor) (res : Value) :
    Except EErr (List Nat) :=
  match res with
  | .structV _ =>
    match encodeStruct fuel { buffer := [], pos := 0 } descriptor res with
    | .error e => .error e
    | .ok w => .ok w.buffer
  | _ => .error .invalidResultPointer

end Encoder

namespace Schema

mutual
/-- `FieldType.GetFixedSize` (`schema/schema.go`).  The Go `switch` has
empty `case TypeUInt64:`, `case TypeUInt32:`, `case TypeUInt16:` arms
(no fallthrough in Go), so those types reach the final `return 0`.
For `TypeFixedBinary` with a non-`int` extra the Go code would panic on
the type assertion; the model returns 0 there (the branch is never
reached by the theorems below). -/
def FieldType.GetFixedSize : FieldType → Extra → Nat
  | .fixedBinary, .intEx n => n
  | .fixedBinary, _ => 0
  | .dynamicBinary, _ => 2
  | .longBinary, _ => 4
  | .uint64T, _ => 0
  | .int64T, _ => 8
  | .uint32T, _ => 0
  | .int32T, _ => 4
  | .uint16T, _ => 0
  | .int16T, _ => 2
  | .objectT, .descEx d => d.GetFixedSizeM
  | .objectT, _ => 0
  | .arrayT, _ => 2

/-- Modelled from the spec: `MessageDescriptor.GetFixedSize` is called by
`Encode` and by the decoder's array pre-check but is not defined anywhere
under `src/`; §4.2.1 of the spec describes it as the descriptor's fixed
lower bound, the sum of the fixed sizes of its required fields. -/
def MessageDescriptor.GetFixedSizeM : MessageDescriptor → Nat
  | .mk _ (.mk _ _ fs) _ _ _ => fieldsFixedSize fs

def fieldsFixedSize : List MessageField → Nat
  | [] => 0
  | .mk _ t e opt :: rest =>
    (if opt then 0 else t.GetFixedSize e) + fieldsFixedSize rest
end

end Schema

namespace Encoder

open Schema

/-- The `encoder` package `Reader` of the descriptor-carrying decoder
(`part_002`): buffer, descriptor, cursor `pos`, and the constant buffer
length `len`. -/
structure Reader where
  buffer : List Nat
  descriptor : MessageDescriptor
  pos : Nat
  len : Nat

/-- `encoder.NewReader` (descriptor-carrying variant). -/
def NewReader (buffer : List Nat) (descriptor : MessageDescriptor) : Reader :=
  { buffer := buffer, descriptor := descriptor, pos := 0,
    len := buffer.length }

/-- `Reader.ReadBytes`: fail with `ErrOutOfBounds` when `n` exceeds the
remaining `len - pos` (leaving the cursor untouched), otherwise hand out
`buffer[pos : pos+n]` and advance.  The subtraction is Go `uint32`
arithmetic, which agrees with `Nat` subtraction whenever `pos ≤ len`. -/
def Reader.ReadBytes (r : Reader) (n : Nat) : Reader × Except EErr (List Nat) :=
  if n > r.len - r.pos then (r, .error .outOfBounds)
  else
    let result := (r.buffer.drop r.pos).take n
    if result.length ≠ n then (r, .error .outOfBounds)
    else ({ r with pos := r.pos + n }, .ok result)

/-- `Reader.ReadUInt16`. -/
def Reader.ReadUInt16 (r : Reader) : Reader × Except EErr Nat :=
  match r.ReadBytes 2 with
  | (r', .error e) => (r', .error e)
  | (r', .ok bs) => (r', .ok (leVal bs))

/-- `Reader.ReadInt16`. -/
def Reader.ReadInt16 (r : Reader) : Reader × Except EErr Int :=
  match r.ReadBytes 2 with
  | (r', .error e) => (r', .error e)
  | (r', .ok bs) => (r', .ok (toSigned 16 (leVal bs)))

/-- `Reader.ReadUInt32`. -/
def Reader.ReadUInt32 (r : Reader) : Reader × Except EErr Nat :=
  match r.ReadBytes 4 with
  | (r', .error e) => (r', .error e)
  | (r', .ok bs) => (r', .ok (leVal bs))

/-- `Reader.ReadInt32`. -/
def Reader.ReadInt32 (r : Reader) : Reader × Except EErr Int :=
  match r.ReadBytes 4 with
  | (r', .error e) => (r', .error e)
  | (r', .ok bs) => (r', .ok (toSigned 32 (leVal bs)))

/-- `Reader.ReadUInt64`. -/
def Reader.ReadUInt64 (r : Reader) : Reader × Except EErr Nat :=
  match r.ReadBytes 8 with
  | (r', .error e) => (r', .error e)
  | (r', .ok bs) => (r', .ok (leVal bs))

/-- `Reader.ReadInt64`. -/
def Reader.ReadInt64 (r : Reader) : Reader × Except EErr Int :=
  match r.ReadBytes 8 with
  | (r', .error e) => (r', .error e)
  | (r', .ok bs) => (r', .ok (toSigned 64 (leVal bs)))

/-- `encoder.GetOpt`: test bit `opt % 8` of byte `opt / 8` of the bitmap.
(Go indexing panics out of range; every call site is guarded by the
optional-counter check, under which `opt / 8 < optList.length`.) -/
def GetOpt (opt : Nat) (optList : List Nat) : Bool :=
  (optList.getD (opt / 8) 0 &&& (1 <<< (opt % 8))) != 0

/-- `encoder.setBytes` (`part_002`): write a parsed byte string into a
slot.  The model carries the Go `Slice` kind as `Value.bytes` (plain
assignment, no check); any other kind is `ErrInvalidByteKind`.  The Go
`Array` (fixed, `ErrWrongLen` on mismatch) and `String` kinds are not
represented. -/
def setBytes (bytes : List Nat) (v : Value) : Except EErr Value :=
  match v with
  | .bytes _ => .ok (.bytes bytes)
  | _ => .error .invalidByteKind

mutual
/-- `Reader.decodeStruct` (`part_002`): kind check, field map, bitmap
read, field walk.  Returns the reader, the (partially) updated struct
value and the error slot, mirroring the in-place mutation of the Go
record. -/
def decodeStruct : Nat → Reader → MessageDescriptor → Value →
    Reader × Value × Option EErr
  | 0, r, _, v => (r, v, Option.some .fuelOut)
  | fuel + 1, r, descriptor, v =>
    match v with
    | .structV slots =>
      if hasDupNames slots then (r, v, Option.some .duplicateTag)
      else
        let optBytes := descriptor.OptFlagLength
        match r.ReadBytes optBytes with
        | (r', .error e) => (r', v, Option.some e)
        | (r', .ok optList) =>
          match decodeFieldLoop fuel r' optList optBytes 0 slots
              descriptor.message.fields with
          | (r'', slots', e) => (r'', .structV slots', e)
    | _ => (r, v, Option.some .invalidResultPointer)

/-- The `for _, field := range descriptor.Message.Fields` loop of
`decodeStruct`: consult the bitmap for optional fields (checking the
counter against `optBytes`, the bitmap length in bytes), then decode into
the bound slot (or parse-and-discard when unbound). -/
def decodeFieldLoop : Nat → Reader → List Nat → Nat → Nat →
    List (String × Value) → List MessageField →
    Reader × List (String × Value) × Option EErr
  | 0, r, _, _, _, slots, _ => (r, slots, Option.some .fuelOut)
  | _ + 1, r, _, _, _, slots, [] => (r, slots, Option.none)
  | fuel + 1, r, optList, optBytes, optCounter, slots, field :: rest =>
    if field.optional then
      if optCounter ≥ optBytes then (r, slots, Option.some .optionalCorrupted)
      else if !GetOpt optCounter optList then
        decodeFieldLoop fuel r optList optBytes (optCounter + 1) slots rest
      else
        decodeFieldStep fuel r optList optBytes (optCounter + 1) slots field
          rest
    else
      decodeFieldStep fuel r optList optBytes optCounter slots field rest

/-- The body under the bitmap check: resolve the slot (`reflect.Value{}`
when unbound), run `decodeSingle`, and write the result back. -/
def decodeFieldStep : Nat → Reader → List Nat → Nat → Nat →
    List (String × Value) → MessageField → List MessageField →
    Reader × List (String × Value) × Option EErr
  | 0, r, _, _, _, slots, _, _ => (r, slots, Option.some .fuelOut)
  | fuel + 1, r, optList, optBytes, optCounter, slots, field, rest =>
    let fOpt := mapLookup slots field.name
    match decodeSingle fuel r field fOpt with
    | (r', f', e) =>
      let slots' := match f' with
        | Option.some nv =>
          if (mapLookup slots field.name).isSome then
            mapInsert slots field.name nv
          else slots
        | Option.none => slots
      match e with
      | Option.some err => (r', slots', Option.some err)
      | Option.none =>
        decodeFieldLoop fuel r' optList optBytes optCounter slots' rest

/-- `Reader.decodeSingle` (`part_002`).  `f = none` is the invalid
`reflect.Value{}` of an unbound field; the returned `Option Value` is the
slot after the in-place mutation. -/
def decodeSingle : Nat → Reader → MessageField → Option Value →
    Reader × Option Value × Option EErr
  | 0, r, _, f => (r, f, Option.some .fuelOut)
  | fuel + 1, r, field, f =>
    match field.type with
    | .fixedBinary =>
      match field.extra with
      | .intEx fLen =>
        match r.ReadBytes fLen with
        | (r', .error e) => (r', f, Option.some e)
        | (r', .ok bytes) =>
          match f with
          | Option.none => (r', Option.none, Option.none)
          | Option.some fv =>
            match setBytes bytes fv with
            | .error e => (r', f, Option.some e)
            | .ok nv => (r', Option.some nv, Option.none)
      | _ => (r, f, Option.some .assertPanic)
    | .dynamicBinary =>
      match r.ReadUInt16 with
      | (r', .error e) => (r', f, Option.some e)
      | (r', .ok len) =>
        match r'.ReadBytes len with
        | (r'', .error e) => (r'', f, Option.some e)
        | (r'', .ok bytes) =>
          match f with
          | Option.none => (r'', Option.none, Option.none)
          | Option.some fv =>
            match setBytes bytes fv with
            | .error e => (r'', f, Option.some e)
            | .ok nv => (r'', Option.some nv, Option.none)
    | .longBinary =>
      match r.ReadUInt32 with
      | (r', .error e) => (r', f, Option.some e)
      | (r', .ok len) =>
        match r'.ReadBytes len with
        | (r'', .error e) => (r'', f, Option.some e)
        | (r'', .ok bytes) =>
          match f with
          | Option.none => (r'', Option.none, Option.none)
          | Option.some fv =>
            match setBytes bytes fv with
            | .error e => (r'', f, Option.some e)
            | .ok nv => (r'', Option.some nv, Option.none)
    | .uint64T =>
      match r.ReadUInt64 with
      | (r', .error e) => (r', f, Option.some e)
      | (r', .ok num) =>
        match f with
        | Option.none => (r', Option.none, Option.none)
        | Option.some (.uintV _) => (r', Option.some (.uintV num), Option.none)
        | Option.some _ => (r', f, Option.some .assertPanic)
    | .int64T =>
      match r.ReadInt64 with
      | (r', .error e) => (r', f, Option.some e)
      | (r', .ok num) =>
        match f with
        | Option.none => (r', Option.none, Option.none)
        | Option.some (.intV _) => (r', Option.some (.intV num), Option.none)
        | Option.some _ => (r', f, Option.some .assertPanic)
    | .uint32T =>
      match r.ReadUInt32 with
      | (r', .error e) => (r', f, Option.some e)
      | (r', .ok num) =>
        match f with
        | Option.none => (r', Option.none, Option.none)
        | Option.some (.uintV _) => (r', Option.some (.uintV num), Option.none)
        | Option.some _ => (r', f, Option.some .assertPanic)
    | .int32T =>
      match r.ReadInt32 with
      | (r', .error e) => (r', f, Option.some e)
      | (r', .ok num) =>
        match f with
        | Option.none => (r', Option.none, Option.none)
        | Option.some (.intV _) => (r', Option.some (.intV num), Option.none)
        | Option.some _ => (r', f, Option.some .assertPanic)
    | .uint16T =>
      match r.ReadUInt16 with
      | (r', .error e) => (r', f, Option.some e)
      | (r', .ok num) =>
        match f with
        | Option.none => (r', Option.none, Option.none)
        | Option.some (.uintV _) => (r', Option.some (.uintV num), Option.none)
        | Option.some _ => (r', f, Option.some .assertPanic)
    | .int16T =>
      match r.ReadInt16 with
      | (r', .error e) => (r', f, Option.some e)
      | (r', .ok num) =>
        match f with
        | Option.none => (r', Option.none, Option.none)
        | Option.some (.intV _) => (r', Option.some (.intV num), Option.none)
        | Option.some _ => (r', f, Option.some .assertPanic)
    | .objectT =>
      match field.extra with
      | .descEx subFields =>
        match f with
        | Option.none =>
          -- Go: `// need to skip bytes here` — the nested body is NOT
          -- consumed when the slot is unbound.
          (r, Option.none, Option.none)
        | Option.some fv =>
          match decodeStruct fuel r subFields fv with
          | (r', fv', e) => (r', Option.some fv', e)
      | _ => (r, f, Option.some .assertPanic)
    | .arrayT =>
      match r.ReadUInt16 with
      | (r', .error e) => (r', f, Option.some e)
      | (r', .ok lenU32) =>
        let arrLen := lenU32
        match f with
        | Option.none =>
          -- Go: `// need to skip bytes here` — the items are NOT consumed
          -- when the slot is unbound.
          (r', Option.none, Option.none)
        | Option.some fv =>
          match fv with
          | .arrayV _ =>
            match field.extra with
            | .fieldEx e =>
              let itemSize := e.type.GetFixedSize e.extra * arrLen
              if itemSize > r'.len - r'.pos then
                (r', Option.some fv, Option.some .outOfBounds)
              else
                -- `f.Set(reflect.MakeSlice(...))`: the slot becomes a
                -- fresh zero-valued slice before the items are decoded.
                match decodeItemsField fuel r' e []
                    (List.replicate arrLen (zeroValueOf e.type)) with
                | (r'', items, err) =>
                  (r'', Option.some (.arrayV items), err)
            | .descEx d =>
              let itemSize := d.GetFixedSizeM * arrLen
              if itemSize > r'.len - r'.pos then
                (r', Option.some fv, Option.some .outOfBounds)
              else
                match decodeItemsStruct fuel r' d []
                    (List.replicate arrLen (.structV [])) with
                | (r'', items, err) =>
                  (r'', Option.some (.arrayV items), err)
            | _ =>
              -- the inner `switch e := field.Extra.(type)` has no default:
              -- with any other extra nothing happens after the count read.
              (r', Option.some fv, Option.none)
          | _ => (r', Option.some fv, Option.some .assertPanic)

/-- The item loop of the array case with a `schema.MessageField` item
spec (`decodeSingle` on each freshly made slice element). -/
def decodeItemsField : Nat → Reader → MessageField → List Value →
    List Value → Reader × List Value × Option EErr
  | 0, r, _, acc, todo => (r, acc ++ todo, Option.some .fuelOut)
  | _ + 1, r, _, acc, [] => (r, acc, Option.none)
  | fuel + 1, r, e, acc, item :: rest =>
    match decodeSingle fuel r e (Option.some item) with
    | (r', slot', err) =>
      let newItem := slot'.getD item
      match err with
      | Option.some er => (r', acc ++ newItem :: rest, Option.some er)
      | Option.none => decodeItemsField fuel r' e (acc ++ [newItem]) rest

/-- The item loop of the array case with a `schema.MessageDescriptor` item
spec (`decodeStruct` on each freshly made slice element). -/
def decodeItemsStruct : Nat → Reader → MessageDescriptor → List Value →
    List Value → Reader × List Value × Option EErr
  | 0, r, _, acc, todo => (r, acc ++ todo, Option.some .fuelOut)
  | _ + 1, r, _, acc, [] => (r, acc, Option.none)
  | fuel + 1, r, d, acc, item :: rest =>
    match decodeStruct fuel r d item with
    | (r', item', err) =>
      match err with
      | Option.some er => (r', acc ++ item' :: rest, Option.some er)
      | Option.none => decodeItemsStruct fuel r' d (acc ++ [item']) rest
end

/-- `Reader.Decode` (`part_002`): reset the cursor to 0, require a
pointer-to-struct result (the pointer indirection is implicit in the
model: the pointee value is passed and the updated pointee returned),
then decode against the reader's descriptor. -/
def Reader.Decode (fuel : Nat) (r : Reader) (res : Value) :
    Reader × Value × Option EErr :=
  decodeStruct fuel { r with pos := 0 } r.descriptor res

end Encoder

namespace Exp

open Schema

/-- `exp/encoder.Reader`: buffer, cursor, and remaining-byte counter. -/
structure Reader where
  buffer : List Nat
  pos : Nat
  availableLen : Nat

/-- `exp/encoder.NewReader`. -/
def NewReader (buffer : List Nat) : Reader :=
  { buffer := buffer, pos := 0, availableLen := buffer.length }

/-- `Reader.ReadBytes` (`exp` variant): bound check against
`availableLen`, which is decremented on every successful read. -/
def Reader.ReadBytes (r : Reader) (n : Nat) :
    Reader × Except Encoder.EErr (List Nat) :=
  if n > r.availableLen then (r, .error .outOfBounds)
  else
    let result := (r.buffer.drop r.pos).take n
    if result.length ≠ n then (r, .error .outOfBounds)
    else ({ r with pos := r.pos + n, availableLen := r.availableLen - n },
          .ok result)

/-- `Reader.ReadUInt16` (`exp`). -/
def Reader.ReadUInt16 (r : Reader) : Reader × Except Encoder.EErr Nat :=
  match r.ReadBytes 2 with
  | (r', .error e) => (r', .error e)
  | (r', .ok bs) => (r', .ok (leVal bs))

/-- `Reader.ReadInt16` (`exp`). -/
def Reader.ReadInt16 (r : Reader) : Reader × Except Encoder.EErr Int :=
  match r.ReadBytes 2 with
  | (r', .error e) => (r', .error e)
  | (r', .ok bs) => (r', .ok (toSigned 16 (leVal bs)))

/-- `Reader.ReadUInt32` (`exp`). -/
def Reader.ReadUInt32 (r : Reader) : Reader × Except Encoder.EErr Nat :=
  match r.ReadBytes 4 with
  | (r', .error e) => (r', .error e)
  | (r', .ok bs) => (r', .ok (leVal bs))

/-- `Reader.ReadInt32` (`exp`). -/
def Reader.ReadInt32 (r : Reader) : Reader × Except Encoder.EErr Int :=
  match r.ReadBytes 4 with
  | (r', .error e) => (r', .error e)
  | (r', .ok bs) => (r', .ok (toSigned 32 (leVal bs)))

/-- `Reader.ReadUInt64` (`exp`). -/
def Reader.ReadUInt64 (r : Reader) : Reader × Except Encoder.EErr Nat :=
  match r.ReadBytes 8 with
  | (r', .error e) => (r', .error e)
  | (r', .ok bs) => (r', .ok (leVal bs))

/-- `Reader.ReadInt64` (`exp`). -/
def Reader.ReadInt64 (r : Reader) : Reader × Except Encoder.EErr Int :=
  match r.ReadBytes 8 with
  | (r', .error e) => (r', .error e)
  | (r', .ok bs) => (r', .ok (toSigned 64 (leVal bs)))

/-- `Reader.decodeSingle` (`exp/encoder/decode.go`): parse the field and,
when the record's field map contains the protocol name, write the machine
value through the slot's raw pointer (no kind checks, no reflection).
The field-map entry carries only offset/kind data, so the write is
modelled as replacing the slot's value.  `TypeObject`/`TypeArray` have no
case and fall to `default: return ErrTypeCorrupted`. -/
def decodeSingle (r : Reader) (field : MessageField)
    (slots : List (String × Value)) :
    Reader × List (String × Value) × Option Encoder.EErr :=
  let bound := (mapLookup slots field.name).isSome
  match field.type with
  | .fixedBinary =>
    match field.extra with
    | .intEx len =>
      match r.ReadBytes len with
      | (r', .error e) => (r', slots, Option.some e)
      | (r', .ok bytes) =>
        if bound then (r', mapInsert slots field.name (.bytes bytes),
          Option.none)
        else (r', slots, Option.none)
    | _ => (r, slots, Option.some .assertPanic)
  | .dynamicBinary =>
    match r.ReadUInt16 with
    | (r', .error e) => (r', slots, Option.some e)
    | (r', .ok len) =>
      match r'.ReadBytes len with
      | (r'', .error e) => (r'', slots, Option.some e)
      | (r'', .ok bytes) =>
        if bound then (r'', mapInsert slots field.name (.bytes bytes),
          Option.none)
        else (r'', slots, Option.none)
  | .longBinary =>
    match r.ReadUInt32 with
    | (r', .error e) => (r', slots, Option.some e)
    | (r', .ok len) =>
      match r'.ReadBytes len with
      | (r'', .error e) => (r'', slots, Option.some e)
      | (r'', .ok bytes) =>
        if bound then (r'', mapInsert slots field.name (.bytes bytes),
          Option.none)
        else (r'', slots, Option.none)
  | .uint64T =>
    match r.ReadUInt64 with
    | (r', .error e) => (r', slots, Option.some e)
    | (r', .ok num) =>
      if bound then (r', mapInsert slots field.name (.uintV num),
        Option.none)
      else (r', slots, Option.none)
  | .int64T =>
    match r.ReadInt64 with
    | (r', .error e) => (r', slots, Option.some e)
    | (r', .ok num) =>
      if bound then (r', mapInsert slots field.name (.intV num), Option.none)
      else (r', slots, Option.none)
  | .uint32T =>
    match r.ReadUInt32 with
    | (r', .error e) => (r', slots, Option.some e)
    | (r', .ok num) =>
      if bound then (r', mapInsert slots field.name (.uintV num),
        Option.none)
      else (r', slots, Option.none)
  | .int32T =>
    match r.ReadInt32 with
    | (r', .error e) => (r', slots, Option.some e)
    | (r', .ok num) =>
      if bound then (r', mapInsert slots field.name (.intV num), Option.none)
      else (r', slots, Option.none)
  | .uint16T =>
    match r.ReadUInt16 with
    | (r', .error e) => (r', slots, Option.some e)
    | (r', .ok num) =>
      if bound then (r', mapInsert slots field.name (.uintV num),
        Option.none)
      else (r', slots, Option.none)
  | .int16T =>
    match r.ReadInt16 with
    | (r', .error e) => (r', slots, Option.some e)
    | (r', .ok num) =>
      if bound then (r', mapInsert slots field.name (.intV num), Option.none)
      else (r', slots, Option.none)
  | .objectT => (r, slots, Option.some .typeCorrupted)
  | .arrayT => (r, slots, Option.some .typeCorrupted)

/-- The field walk of `Reader.Decode` (`exp`): same bitmap logic as the
reflect decoder, but the `r.decodeSingle(...)` result is DISCARDED — a
per-field error does not abort the walk and is never reported. -/
def decodeLoop (r : Reader) (optList : List Nat) (optBytes optCounter : Nat)
    (slots : List (String × Value)) :
    List MessageField →
    Reader × List (String × Value) × Option Encoder.EErr
  | [] => (r, slots, Option.none)
  | field :: rest =>
    if field.optional then
      if optCounter ≥ optBytes then (r, slots, Option.some .optionalCorrupted)
      else if !Encoder.GetOpt optCounter optList then
        decodeLoop r optList optBytes (optCounter + 1) slots rest
      else
        match decodeSingle r field slots with
        | (r', slots', _) =>
          decodeLoop r' optList optBytes (optCounter + 1) slots' rest
    else
      match decodeSingle r field slots with
      | (r', slots', _) =>
        decodeLoop r' optList optBytes optCounter slots' rest

/-- `Reader.Decode` (`exp/encoder/decode.go`): pointer/struct check, field
map (duplicate-tag check), bitmap read, then the field walk with ignored
per-field errors. -/
def Reader.Decode (r : Reader) (descriptor : MessageDescriptor)
    (res : Value) : Reader × Value × Option Encoder.EErr :=
  match res with
  | .structV slots =>
    if hasDupNames slots then (r, res, Option.some .duplicateTag)
    else
      let optBytes := descriptor.OptFlagLength
      match r.ReadBytes optBytes with
      | (r', .error e) => (r', res, Option.some e)
      | (r', .ok optList) =>
        match decodeLoop r' optList optBytes 0 slots
            descriptor.message.fields with
        | (r'', slots', e) => (r'', .structV slots', e)
  | _ => (r, res, Option.some .invalidResultObject)

end Exp

namespace Ipc

open Schema

/-- `schemaipc.MessageOverflowPolicy` (`const.go`). -/
inductive MessageOverflowPolicy where
  | discard
  | terminate
deriving DecidableEq

/-- `schemaipc.ConnState` (`const.go`). -/
inductive ConnState where
  | waitHello
  | established
deriving DecidableEq

/-- The connection-layer error values (`const.go` / `part_003`):
`ErrHeaderLength`/short header read, `ErrMsgLength`, `ErrMsgReadLength`/
short payload read, `ErrSentInvalidDirection`, `ErrInvalidDescriptor`
(used both for an unknown message ID and for a user message before the
handshake), and a handler-returned error. -/
inductive ConnErr where
  | headerRead
  | msgLength
  | payloadRead
  | sentInvalidDirection
  | invalidDescriptor
  | handlerFailed
deriving DecidableEq

/-- `schemaipc.ProtocolHeader`. -/
structure ProtocolHeader where
  PacketLength : Nat
  MessageType : Nat

/-- `Conn.readHeader`: a full 8-byte read off the stream, then two
little-endian `u32` parses.  A short stream is the `io.ReadFull` error. -/
def readHeader (stream : List Nat) :
    Except ConnErr (ProtocolHeader × List Nat) :=
  if stream.length < 8 then .error .headerRead
  else
    .ok ({ PacketLength := leVal (stream.take 4),
           MessageType := leVal ((stream.drop 4).take 4) },
         stream.drop 8)

/-- `Conn.readPaylod`: a full `len`-byte read off the stream. -/
def readPayload (len : Nat) (stream : List Nat) :
    Except ConnErr (List Nat × List Nat) :=
  if stream.length < len then .error .payloadRead
  else .ok (stream.take len, stream.drop len)

/-- The outcome of one `Conn.nextMessage` iteration: the `error` result
(a non-`none` error makes `HandleConnection` break the loop and close the
connection), the unread remainder of the stream, and whether a handler
was invoked. -/
structure NextMessageResult where
  result : Option ConnErr
  rest : List Nat
  handlerInvoked : Bool

/-- `Conn.nextMessage` (`part_003`).  The registry's `Descriptors` map is
the lookup function `descs`; the opaque `descriptor.Handler` callback is
the oracle `runHandler` (by message-type ID and payload), consulted only
when the descriptor's handler is non-nil.  `io.CopyN(io.Discard, ...)`
consumes up to `PacketLength` bytes and its error is ignored. -/
def nextMessage (maxMessageSize : Nat) (policy : MessageOverflowPolicy)
    (descs : Nat → Option MessageDescriptor) (state : ConnState)
    (runHandler : Nat → List Nat → Option ConnErr)
    (stream : List Nat) : NextMessageResult :=
  match readHeader stream with
  | .error e => { result := Option.some e, rest := stream,
                  handlerInvoked := false }
  | .ok (header, rest) =>
    if header.PacketLength > maxMessageSize then
      match policy with
      | .discard =>
        { result := Option.none, rest := rest.drop header.PacketLength,
          handlerInvoked := false }
      | .terminate =>
        { result := Option.some .msgLength, rest := rest,
          handlerInvoked := false }
    else
      match descs header.MessageType with
      | Option.none =>
        { result := Option.some .invalidDescriptor, rest := rest,
          handlerInvoked := false }
      | Option.some descriptor =>
        if descriptor.message.direction = .outbound then
          { result := Option.some .sentInvalidDirection, rest := rest,
            handlerInvoked := false }
        else if !descriptor.internal ∧ state = .waitHello then
          { result := Option.some .invalidDescriptor, rest := rest,
            handlerInvoked := false }
        else if !descriptor.hasHandler then
          { result := Option.none, rest := rest.drop header.PacketLength,
            handlerInvoked := false }
        else
          match readPayload header.PacketLength rest with
          | .error e => { result := Option.some e, rest := rest,
                          handlerInvoked := false }
          | .ok (payload, rest') =>
            { result := runHandler header.MessageType payload, rest := rest',
              handlerInvoked := true }

end Ipc

open Schema

/-! ## Fixtures used by the claim theorems -/

/-- A descriptor with two optional `int32` fields (`optional_count = 2`,
so `opt_flag_length = 1` byte = 8 bitmap slots). -/
def twoOptDesc : MessageDescriptor :=
  .mk 0 (.mk .inbound "m"
    [ .mk "b" .int32T .nilEx true,
      .mk "c" .int32T .nilEx true ]) 2 false false

/-- A record binding both optional fields of `twoOptDesc` to non-zero
values — it conforms to the descriptor (no required fields; both slots
well-shaped 32-bit values). -/
def twoOptRec : Value := .structV [("b", .intV 1), ("c", .intV 1)]

/-- The §8 scenario-2 descriptor: `a:i32` required, `b:i32` optional,
`c:i32` optional. -/
def c4Desc : MessageDescriptor :=
  .mk 0 (.mk .inbound "m"
    [ .mk "a" .int32T .nilEx false,
      .mk "b" .int32T .nilEx true,
      .mk "c" .int32T .nilEx true ]) 2 false false

/-- The §8 scenario-2 record `{A=7, B=absent, C=9}` (an absent optional
is a zero-valued slot in the Go record). -/
def c4Rec : Value :=
  .structV [("a", .intV 7), ("b", .intV 0), ("c", .intV 9)]

/-- The byte string `04 07 00 00 00 09 00 00 00` that the claim says the
scenario-2 record encodes to. -/
def c4Bytes : List Nat := [0x04, 7, 0, 0, 0, 9, 0, 0, 0]

/-- A fresh all-default record shaped for `c4Desc`. -/
def c4Fresh : Value :=
  .structV [("a", .intV 0), ("b", .intV 0), ("c", .intV 0)]

/-- A descriptor whose first field is a required `Object` (one `int32`
sub-field, so a 4-byte body) and whose second field is a required
`int32`. -/
def c3Desc : MessageDescriptor :=
  .mk 0 (.mk .inbound "m"
    [ .mk "obj" .objectT
        (.descEx (.mk 0 (.mk .inbound "sub"
          [.mk "x" .int32T .nilEx false]) 0 false false)) false,
      .mk "y" .int32T .nilEx false ]) 0 false false

/-- A body for `c3Desc`: the object's body encodes `x = 9`, then `y = 7`. -/
def c3Buf : List Nat := [9, 0, 0, 0, 7, 0, 0, 0]

/-! ## C1 -/

/-- **C1.** The round-trip claim fails on the code: `twoOptRec` conforms
to `twoOptDesc` (no required fields, both slots well-shaped), yet
`Encode` returns `ErrOptionalCorrupted` instead of producing bytes — the
optional-counter guard `optCounter >= optBytes` compares the per-field
bit counter against `OptFlagLength()` measured in BYTES, so the second
optional field already trips it.  No descriptor with two or more
optional fields can be encoded (or decoded), and the claimed round trip
never takes place for them. -/
theorem c1_encode_fails_on_conforming_record :
    Encoder.Encode 10 twoOptDesc twoOptRec =
      Except.error Encoder.EErr.optionalCorrupted := by
  rfl

/-! ## C2 -/

/-- **C2.** The optional-counter guard does not implement the claimed
`opt_flag_length × 8` bound: `optional_count ≤ 8 × opt_flag_length` does
hold for every descriptor (first conjunct, the ceiling derivation), yet
walking the two optional fields of `twoOptDesc` signals
`OptionalCorrupted` on both the encode and the decode paths, because the
code compares the counter with `opt_flag_length` itself (1 byte) rather
than with `opt_flag_length × 8` (8 slots). -/
theorem c2_optional_guard_uses_bytes_not_bits :
    (∀ d : MessageDescriptor, d.optionalCount ≤ 8 * d.OptFlagLength) ∧
    Encoder.Encode 10 twoOptDesc twoOptRec =
      Except.error Encoder.EErr.optionalCorrupted ∧
    (Encoder.Reader.Decode 10
        (Encoder.NewReader [0x03, 1, 0, 0, 0, 1, 0, 0, 0] twoOptDesc)
        (.structV [("b", .intV 0), ("c", .intV 0)])).2.2 =
      Option.some Encoder.EErr.optionalCorrupted := by
  refine ⟨fun d => ?_, by rfl, by rfl⟩
  unfold MessageDescriptor.OptFlagLength
  have h8 : d.optionalCount % 8 < 8 := Nat.mod_lt _ (by omega)
  have hd : 8 * (d.optionalCount / 8) + d.optionalCount % 8 =
      d.optionalCount := Nat.div_add_mod _ 8
  by_cases h : d.optionalCount % 8 = 0 <;> simp [h] <;> omega

/-! ## C3 -/

/-- **C3.** Parse-and-discard is NOT implemented for the recursive field
types: decoding `c3Buf` against `c3Desc` with a record that binds only
`"y"` returns success, but the unbound `Object` field consumed none of
its 4 body bytes (the code returns early with the comment "need to skip
bytes here"), so the cursor stays at 0 and the bound field `y` is decoded
from the object's bytes — it ends up `9` instead of the `7` that sits at
offset 4, and the cursor finishes at 4 with 4 bytes left over.  The
claim's parse-and-discard property holds for the scalar and binary
types but fails for `Object` (and likewise `Array`), desynchronizing all
following fields. -/
theorem c3_unbound_object_skips_no_bytes :
    Encoder.Reader.Decode 10 (Encoder.NewReader c3Buf c3Desc)
      (.structV [("y", .intV 0)]) =
    ({ buffer := c3Buf, descriptor := c3Desc, pos := 4, len := 8 },
     .structV [("y", .intV 9)], Option.none) := by
  rfl

/-! ## C4 -/

/-- **C4 (counterexample).** The claim's concrete encode does not happen:
encoding `{A=7, B=absent, C=9}` under `c4Desc` fails with
`ErrOptionalCorrupted` (second optional field, same byte-vs-bit guard as
C1/C2) — in particular it does not produce the claimed bytes
`04 07 00 00 00 09 00 00 00`. -/
theorem c4_counterexample :
    Encoder.Encode 10 c4Desc c4Rec =
      Except.error Encoder.EErr.optionalCorrupted ∧
    Encoder.Encode 10 c4Desc c4Rec ≠ Except.ok c4Bytes := by
  have h : Encoder.Encode 10 c4Desc c4Rec =
      Except.error Encoder.EErr.optionalCorrupted := by rfl
  exact ⟨h, by simp [h]⟩

/-- **C4 (amended).** Encoding the scenario-2 record fails with
`OptionalCorrupted` (no bytes are produced), and decoding the claimed
bytes `04 07 00 00 00 09 00 00 00` into a fresh record likewise fails
with `OptionalCorrupted` when the walk reaches the second optional
field. -/
theorem c4_amended :
    Encoder.Encode 10 c4Desc c4Rec =
      Except.error Encoder.EErr.optionalCorrupted ∧
    (Encoder.Reader.Decode 10 (Encoder.NewReader c4Bytes c4Desc)
        c4Fresh).2.2 = Option.some Encoder.EErr.optionalCorrupted := by
  exact ⟨by rfl, by rfl⟩

/-! ## C8 -/

/-- **C8.** `Reader.ReadBytes` safety: under the cursor invariant
`len = buffer.length ∧ pos ≤ len`, every read (a) preserves the
invariant, (b) fails exactly when `n` exceeds the remaining
`len - pos`, (c) on failure returns `OutOfBounds` and leaves the reader
(in particular the cursor) unchanged, and (d) on success advances the
cursor by exactly `n` and hands out `buffer[pos : pos+n]`, whose end
`pos + n` stays inside the buffer — no read indexes outside it. -/
theorem c8_readbytes_safe (r : Encoder.Reader) (n : Nat)
    (h : r.len = r.buffer.length ∧ r.pos ≤ r.len) :
    ((r.ReadBytes n).1.len = (r.ReadBytes n).1.buffer.length ∧
      (r.ReadBytes n).1.pos ≤ (r.ReadBytes n).1.len) ∧
    ((∃ e, (r.ReadBytes n).2 = Except.error e) ↔ n > r.len - r.pos) ∧
    (∀ e, (r.ReadBytes n).2 = Except.error e →
      (r.ReadBytes n).1 = r ∧ e = Encoder.EErr.outOfBounds) ∧
    (∀ bs, (r.ReadBytes n).2 = Except.ok bs →
      (r.ReadBytes n).1.pos = r.pos + n ∧ r.pos + n ≤ r.buffer.length ∧
      bs = (r.buffer.drop r.pos).take n ∧ bs.length = n) := by
  obtain ⟨hlen, hpos⟩ := h
  unfold Encoder.Reader.ReadBytes
  by_cases hgt : n > r.len - r.pos
  · simp [hgt]
    exact ⟨hlen, hpos⟩
  · have hle : n ≤ r.buffer.length - r.pos := by omega
    have hresl : ((r.buffer.drop r.pos).take n).length = n := by
      simp [List.length_take, List.length_drop]
      omega
    simp [hgt, hresl]
    refine ⟨⟨hlen, by omega⟩, by omega⟩

/-- Witness for C8 at a concrete reader. -/
theorem c8_readbytes_safe_witness :
    (let r : Encoder.Reader :=
      { buffer := [1, 2, 3], descriptor := twoOptDesc, pos := 1, len := 3 }
     (r.len = r.buffer.length ∧ r.pos ≤ r.len) ∧
     (((r.ReadBytes 2).1.len = (r.ReadBytes 2).1.buffer.length ∧
        (r.ReadBytes 2).1.pos ≤ (r.ReadBytes 2).1.len) ∧
      ((∃ e, (r.ReadBytes 2).2 = Except.error e) ↔ 2 > r.len - r.pos) ∧
      (∀ e, (r.ReadBytes 2).2 = Except.error e →
        (r.ReadBytes 2).1 = r ∧ e = Encoder.EErr.outOfBounds) ∧
      (∀ bs, (r.ReadBytes 2).2 = Except.ok bs →
        (r.ReadBytes 2).1.pos = r.pos + 2 ∧ r.pos + 2 ≤ r.buffer.length ∧
        bs = (r.buffer.drop r.pos).take 2 ∧ bs.length = 2))) :=
  ⟨⟨rfl, by decide⟩, c8_readbytes_safe _ 2 ⟨rfl, by decide⟩⟩

/-! ## C5 -/

theorem natLookup_natInsert {α : Type} (m : List (Nat × α)) (k : Nat) (v : α)
    (j : Nat) :
    natLookup (natInsert m k v) j =
      if k = j then Option.some v else natLookup m j := by
  induction m with
  | nil =>
    by_cases h : k = j <;> simp [natInsert, natLookup, h]
  | cons hd tl ih =>
    obtain ⟨k', v'⟩ := hd
    by_cases h1 : k' = k
    · subst h1
      by_cases h2 : k' = j <;> simp [natInsert, natLookup, h2]
    · by_cases h2 : k' = j
      · subst h2
        have : ¬ k = k' := fun h => h1 h.symm
        simp [natInsert, natLookup, h1, this]
      · simp [natInsert, natLookup, h1, h2, ih]

/-- Successful `registerLoop` runs advance the counter by the number of
messages, keep all other IDs untouched, and install the `i`-th message at
ID `c + i` with a freshly computed optional count, the requested
`internal` mark, and no handler. -/
theorem registerLoop_ok (internal : Bool) :
    ∀ (msgs : List SchemaMessage) (descs : List (Nat × MessageDescriptor))
      (sigs : List (String × Nat)) (c : Nat)
      (descs' : List (Nat × MessageDescriptor)) (sigs' : List (String × Nat))
      (c' : Nat),
    registerLoop internal descs sigs c msgs =
      (descs', sigs', c', Option.none) →
    c' = c + msgs.length ∧
    (∀ k, k < c → natLookup descs' k = natLookup descs k) ∧
    (∀ i m, msgs[i]? = Option.some m →
      natLookup descs' (c + i) =
        Option.some (.mk (c + i) m m.CountOptional internal false)) ∧
    (∀ k, c + msgs.length ≤ k → natLookup descs' k = natLookup descs k) := by
  intro msgs
  induction msgs with
  | nil =>
    intro descs sigs c descs' sigs' c' h
    simp [registerLoop] at h
    obtain ⟨h1, h2, h3⟩ := h
    subst h1; subst h2; subst h3
    refine ⟨by simp, fun k _ => rfl, fun i m hm => by simp at hm,
      fun k _ => rfl⟩
  | cons msg rest ih =>
    intro descs sigs c descs' sigs' c' h
    rw [registerLoop] at h
    rcases hh : handleSignatures sigs msg c with ⟨sigs1, oe⟩
    rw [hh] at h
    cases oe with
    | some e => simp at h
    | none =>
      simp only at h
      have spec := ih
        (natInsert descs c (.mk c msg msg.CountOptional internal false))
        sigs1 (c + 1) descs' sigs' c' h
      obtain ⟨hc, hlow, hmid, hhigh⟩ := spec
      refine ⟨by simp [hc]; omega, ?_, ?_, ?_⟩
      · intro k hk
        rw [hlow k (by omega), natLookup_natInsert]
        simp [show ¬ c = k by omega]
      · intro i m hm
        cases i with
        | zero =>
          simp at hm
          subst hm
          have h0 : c + 0 = c := by omega
          rw [h0, hlow c (by omega), natLookup_natInsert]
          simp
        | succ j =>
          have := hmid j m (by simpa using hm)
          simpa [Nat.add_comm, Nat.add_assoc, Nat.add_left_comm,
            show c + 1 + j = c + (j + 1) by omega] using this
      · intro k hk
        rw [hhigh k (by simp at hk ⊢; omega), natLookup_natInsert]
        simp [show ¬ c = k by simp at hk; omega]

/-- The registry after `RegisterInternal()` on a fresh registry. -/
def internalOnlyRegistry : Registry :=
  (Registry.RegisterInternal Registry.empty).1

/-- The internal descriptor at ID 0: the inbound Hello message. -/
def helloInDesc : MessageDescriptor :=
  .mk 0 (.mk .inbound "Hello"
    [ .mk "minVersion" .int32T .nilEx false,
      .mk "currVersion" .int32T .nilEx false ]) 0 true false

/-- The internal descriptor at ID 1: the outbound Hello message. -/
def helloOutDesc : MessageDescriptor :=
  .mk 1 (.mk .outbound "Hello"
    [ .mk "minVersion" .int32T .nilEx false,
      .mk "currVersion" .int32T .nilEx false,
      .mk "schema" .longBinary .nilEx false,
      .mk "descriptorRegistry" .longBinary .nilEx false ]) 0 true false

/-- The internal descriptor at ID 2: the duplex Ping message. -/
def pingDesc : MessageDescriptor :=
  .mk 2 (.mk .duplex "Ping"
    [ .mk "timestamp" .int64T .nilEx false ]) 0 true false

/-- **C5.** After `RegisterInternal()` and a successful
`RegisterSchema(S)`, the descriptor map holds exactly the IDs
`0 .. 2 + |S.messages|` with no gaps; ID 0 is the inbound Hello, ID 1
the outbound Hello, ID 2 the duplex Ping (all marked internal), and the
`i`-th user message sits at ID `3 + i` (not internal, no handler). -/
theorem c5_registry_density (s : Schema.Schema) (r2 : Registry)
    (h : Registry.RegisterSchema internalOnlyRegistry s =
      (r2, Option.none)) :
    (Registry.RegisterInternal Registry.empty).2 = Option.none ∧
    (∀ id, (natLookup r2.Descriptors id).isSome ↔
      id < 3 + s.messages.length) ∧
    natLookup r2.Descriptors 0 = Option.some helloInDesc ∧
    natLookup r2.Descriptors 1 = Option.some helloOutDesc ∧
    natLookup r2.Descriptors 2 = Option.some pingDesc ∧
    (∀ i m, s.messages[i]? = Option.some m →
      natLookup r2.Descriptors (3 + i) =
        Option.some (.mk (3 + i) m m.CountOptional false false)) := by
  have hru : internalOnlyRegistry.RegisteredUser = false := rfl
  have hri : internalOnlyRegistry.RegisteredInternal = true := rfl
  rw [Registry.RegisterSchema, hru, hri] at h
  simp only [Bool.false_eq_true, if_false, Bool.not_true, if_neg] at h
  rcases hl : registerLoop false internalOnlyRegistry.Descriptors
      internalOnlyRegistry.UserSignatureMap internalOnlyRegistry.idCounter
      s.messages with ⟨descs', sigs', c', oe⟩
  rw [hl] at h
  cases oe with
  | some e => simp at h
  | none =>
    simp only [Prod.mk.injEq] at h
    obtain ⟨hr2, -⟩ := h
    have hdescs : r2.Descriptors = descs' := by rw [← hr2]
    have hcount : internalOnlyRegistry.idCounter = 3 := rfl
    rw [hcount] at hl
    obtain ⟨hc, hlow, hmid, hhigh⟩ :=
      registerLoop_ok false s.messages internalOnlyRegistry.Descriptors
        internalOnlyRegistry.UserSignatureMap 3 descs' sigs' c' hl
    have hbase : internalOnlyRegistry.Descriptors =
        [(0, helloInDesc), (1, helloOutDesc), (2, pingDesc)] := rfl
    refine ⟨rfl, ?_, ?_, ?_, ?_, ?_⟩
    · intro id
      rcases Nat.lt_or_ge id 3 with hid | hid
      · rw [hdescs, hlow id hid, hbase]
        interval_cases id <;> simp [natLookup] <;> omega
      · rcases Nat.lt_or_ge id (3 + s.messages.length) with hid2 | hid2
        · have hi : id - 3 < s.messages.length := by omega
          have hm : s.messages[id - 3]? =
              Option.some (s.messages.get ⟨id - 3, hi⟩) := by
            simp [List.getElem?_eq_getElem hi, List.get_eq_getElem]
          have := hmid (id - 3) _ hm
          rw [show 3 + (id - 3) = id by omega] at this
          rw [hdescs]
          simp [this, hid2]
        · have hnone : natLookup internalOnlyRegistry.Descriptors id =
              Option.none := by
            rw [hbase]
            simp [natLookup, show ¬ (0 = id) by omega,
              show ¬ (1 = id) by omega, show ¬ (2 = id) by omega]
          rw [hdescs, hhigh id (by omega), hnone]
          simp
          omega
    · rw [hdescs, hlow 0 (by omega), hbase]; rfl
    · rw [hdescs, hlow 1 (by omega), hbase]; rfl
    · rw [hdescs, hlow 2 (by omega), hbase]; rfl
    · intro i m hm
      rw [hdescs]
      exact hmid i m hm

/-- Witness for C5 at a one-message user schema. -/
theorem c5_registry_density_witness :
    (Registry.RegisterSchema internalOnlyRegistry
        ⟨[.mk .inbound "Test" []]⟩ =
      ((Registry.RegisterSchema internalOnlyRegistry
        ⟨[.mk .inbound "Test" []]⟩).1, Option.none)) ∧
    ((Registry.RegisterInternal Registry.empty).2 = Option.none ∧
     (∀ id, (natLookup (Registry.RegisterSchema internalOnlyRegistry
        ⟨[.mk .inbound "Test" []]⟩).1.Descriptors id).isSome ↔
        id < 3 + (⟨[.mk .inbound "Test" []]⟩ : Schema.Schema).messages.length) ∧
     natLookup (Registry.RegisterSchema internalOnlyRegistry
        ⟨[.mk .inbound "Test" []]⟩).1.Descriptors 0 =
        Option.some helloInDesc ∧
     natLookup (Registry.RegisterSchema internalOnlyRegistry
        ⟨[.mk .inbound "Test" []]⟩).1.Descriptors 1 =
        Option.some helloOutDesc ∧
     natLookup (Registry.RegisterSchema internalOnlyRegistry
        ⟨[.mk .inbound "Test" []]⟩).1.Descriptors 2 =
        Option.some pingDesc ∧
     (∀ i m, (⟨[.mk .inbound "Test" []]⟩ : Schema.Schema).messages[i]? =
        Option.some m →
      natLookup (Registry.RegisterSchema internalOnlyRegistry
        ⟨[.mk .inbound "Test" []]⟩).1.Descriptors (3 + i) =
        Option.some (.mk (3 + i) m m.CountOptional false false))) :=
  ⟨rfl, c5_registry_density ⟨[.mk .inbound "Test" []]⟩ _ rfl⟩

/-! ## C7 -/

/-- A user schema whose second message (Duplex `"M"`) collides with the
first (`inbound "M"`) on the `inbound M` signature. -/
def c7BadSchema : Schema.Schema :=
  ⟨[.mk .inbound "M" [], .mk .duplex "M" []]⟩

/-- **C7 (counterexample).** A duplicate-signature failure of
`RegisterSchema` is NOT free of partial state: after the failed call the
registry's descriptor map answers lookups for both IDs 3 (the first
message) and 4 (the duplicate duplex message itself), the user signature
map holds `inbound M ↦ 3`, and the ID counter has advanced to 5 — all of
it observable to subsequent callers. -/
theorem c7_counterexample :
    (Registry.RegisterSchema internalOnlyRegistry c7BadSchema).2 =
      Option.some (.duplicateSignature "inbound M") ∧
    natLookup (Registry.RegisterSchema internalOnlyRegistry
        c7BadSchema).1.Descriptors 4 =
      Option.some (.mk 4 (.mk .duplex "M" []) 0 false false) ∧
    mapLookup (Registry.RegisterSchema internalOnlyRegistry
        c7BadSchema).1.UserSignatureMap "inbound M" = Option.some 3 ∧
    (Registry.RegisterSchema internalOnlyRegistry
        c7BadSchema).1.idCounter = 5 := by
  exact ⟨rfl, rfl, rfl, rfl⟩

/-- **C7 (amended).** The whole call does fail with the
duplicate-signature error and leaves `RegisteredUser` false, but the
partial registration persists and affects later operations: the
descriptors inserted up to and including the failing message stay in the
map, the signatures registered before the duplicate stay in the user
signature map, the ID counter stays advanced, and — because
`RegisteredUser` is still false — a subsequent `RegisterSchema` is
accepted and continues from the advanced counter (here assigning ID 5
while the orphaned IDs 3 and 4 remain visible). -/
theorem c7_amended :
    (Registry.RegisterSchema internalOnlyRegistry c7BadSchema).2 =
      Option.some (.duplicateSignature "inbound M") ∧
    (Registry.RegisterSchema internalOnlyRegistry
        c7BadSchema).1.RegisteredUser = false ∧
    natLookup (Registry.RegisterSchema internalOnlyRegistry
        c7BadSchema).1.Descriptors 3 =
      Option.some (.mk 3 (.mk .inbound "M" []) 0 false false) ∧
    natLookup (Registry.RegisterSchema internalOnlyRegistry
        c7BadSchema).1.Descriptors 4 =
      Option.some (.mk 4 (.mk .duplex "M" []) 0 false false) ∧
    (Registry.RegisterSchema internalOnlyRegistry
        c7BadSchema).1.idCounter = 5 ∧
    (Registry.RegisterSchema (Registry.RegisterSchema internalOnlyRegistry
        c7BadSchema).1 ⟨[.mk .inbound "N" []]⟩).2 = Option.none ∧
    natLookup (Registry.RegisterSchema
        (Registry.RegisterSchema internalOnlyRegistry c7BadSchema).1
        ⟨[.mk .inbound "N" []]⟩).1.Descriptors 5 =
      Option.some (.mk 5 (.mk .inbound "N" []) 0 false false) ∧
    natLookup (Registry.RegisterSchema
        (Registry.RegisterSchema internalOnlyRegistry c7BadSchema).1
        ⟨[.mk .inbound "N" []]⟩).1.Descriptors 4 =
      Option.some (.mk 4 (.mk .duplex "M" []) 0 false false) := by
  exact ⟨rfl, rfl, rfl, rfl, rfl, rfl, rfl, rfl⟩

/-! ## C6 -/

/-- **C6.** For a frame whose header read succeeds (`8 ≤ stream.length`)
and whose payload length is within `MaxMessageSize`, `nextMessage`
returns an error (closing the connection) iff the message-type ID is
unknown, or the descriptor's direction is Outbound, or the state is
`WaitHello` and the descriptor is not internal, or (a handler being
bound) the body read or the handler invocation fails; a handler is never
invoked for a non-internal descriptor in `WaitHello`; and the unknown-ID,
direction, and state checks fire in that order (each later error is
reported only when the earlier conditions are absent, each earlier one
regardless of the later conditions).  The unknown-ID and state-guard
branches both return the Go value `ErrInvalidDescriptor` (the spec's
*UnknownDescriptor* / *InvalidDescriptor* categories), the direction
branch `ErrSentInvalidDirection` (*InvalidDirection*). -/
theorem c6_dispatch_guards (maxSize : Nat)
    (policy : Ipc.MessageOverflowPolicy)
    (descs : Nat → Option MessageDescriptor) (state : Ipc.ConnState)
    (runHandler : Nat → List Nat → Option Ipc.ConnErr)
    (stream : List Nat)
    (h8 : 8 ≤ stream.length)
    (hsz : leVal (stream.take 4) ≤ maxSize) :
    ((Ipc.nextMessage maxSize policy descs state runHandler
        stream).result.isSome ↔
      (descs (leVal ((stream.drop 4).take 4)) = Option.none ∨
       ∃ d, descs (leVal ((stream.drop 4).take 4)) = Option.some d ∧
         (d.message.direction = .outbound ∨
          (state = .waitHello ∧ d.internal = false) ∨
          (d.hasHandler = true ∧
            ((stream.drop 8).length < leVal (stream.take 4) ∨
             (runHandler (leVal ((stream.drop 4).take 4))
               ((stream.drop 8).take (leVal (stream.take 4)))).isSome))))) ∧
    ((Ipc.nextMessage maxSize policy descs state runHandler
        stream).handlerInvoked = true →
      ∃ d, descs (leVal ((stream.drop 4).take 4)) = Option.some d ∧
        d.hasHandler = true ∧
        ¬ (state = .waitHello ∧ d.internal = false)) ∧
    (descs (leVal ((stream.drop 4).take 4)) = Option.none →
      (Ipc.nextMessage maxSize policy descs state runHandler
        stream).result = Option.some .invalidDescriptor) ∧
    (∀ d, descs (leVal ((stream.drop 4).take 4)) = Option.some d →
      d.message.direction = .outbound →
      (Ipc.nextMessage maxSize policy descs state runHandler
        stream).result = Option.some .sentInvalidDirection) ∧
    (∀ d, descs (leVal ((stream.drop 4).take 4)) = Option.some d →
      d.message.direction ≠ .outbound → state = .waitHello →
      d.internal = false →
      (Ipc.nextMessage maxSize policy descs state runHandler
        stream).result = Option.some .invalidDescriptor) := by
  have hnm : Ipc.nextMessage maxSize policy descs state runHandler stream =
      (match descs (leVal ((stream.drop 4).take 4)) with
       | Option.none =>
         { result := Option.some .invalidDescriptor, rest := stream.drop 8,
           handlerInvoked := false }
       | Option.some descriptor =>
         if descriptor.message.direction = .outbound then
           { result := Option.some .sentInvalidDirection,
             rest := stream.drop 8, handlerInvoked := false }
         else if !descriptor.internal ∧ state = .waitHello then
           { result := Option.some .invalidDescriptor,
             rest := stream.drop 8, handlerInvoked := false }
         else if !descriptor.hasHandler then
           { result := Option.none,
             rest := (stream.drop 8).drop (leVal (stream.take 4)),
             handlerInvoked := false }
         else
           match Ipc.readPayload (leVal (stream.take 4)) (stream.drop 8) with
           | .error e =>
             { result := Option.some e, rest := stream.drop 8,
               handlerInvoked := false }
           | .ok (payload, rest') =>
             { result := runHandler (leVal ((stream.drop 4).take 4)) payload,
               rest := rest', handlerInvoked := true }) := by
    rw [Ipc.nextMessage, Ipc.readHeader, if_neg (by omega : ¬ stream.length < 8)]
    simp only
    rw [if_neg (by omega : ¬ leVal (stream.take 4) > maxSize)]
  rcases hd : descs (leVal ((stream.drop 4).take 4)) with _ | d
  · rw [hd] at hnm
    simp only [hnm]
    simp [hd]
  · rw [hd] at hnm
    simp only [hnm]
    by_cases hdir : d.message.direction = .outbound
    · rw [if_pos hdir]
      simp [hd, hdir]
    · rw [if_neg hdir]
      by_cases hguard : ((!d.internal) = true) ∧ state = Ipc.ConnState.waitHello
      · rw [if_pos hguard]
        obtain ⟨hint, hst⟩ := hguard
        simp only [Bool.not_eq_true'] at hint
        simp [hd, hdir, hint, hst]
      · rw [if_neg hguard]
        have hng : ¬ (state = .waitHello ∧ d.internal = false) := by
          intro ⟨h1, h2⟩
          exact hguard ⟨by simp [h2], h1⟩
        have hng' : state = Ipc.ConnState.waitHello → d.internal = true := by
          intro hs
          cases hi : d.internal
          · exact absurd ⟨hs, hi⟩ hng
          · rfl
        by_cases hh : (!d.hasHandler) = true
        · rw [if_pos hh]
          simp only [Bool.not_eq_true'] at hh
          simp [hd, hdir, hng, hh]
          exact hng'
        · rw [if_neg hh]
          simp only [Bool.not_eq_true', Bool.not_eq_false] at hh
          by_cases hb : (stream.drop 8).length < leVal (stream.take 4)
          · rw [Ipc.readPayload, if_pos hb]
            simp only [List.length_drop] at hb
            simp [hd, hdir, hng, hh, hb, hng']
            exact hng'
          · rw [Ipc.readPayload, if_neg hb]
            simp only
            rcases hrh : runHandler (leVal ((stream.drop 4).take 4))
                ((stream.drop 8).take (leVal (stream.take 4))) with _ | e
            · simp only [List.length_drop] at hb
              simp [hd, hdir, hng, hh, hrh, hng']
              exact ⟨by omega, hng'⟩
            · simp only [List.length_drop] at hb
              simp [hd, hdir, hng, hh, hrh, hng']
              exact ⟨hng', fun hs hf => absurd (hng' hs) (by simp [hf])⟩

/-- The concrete registry-lookup function used by the C6 witness. -/
def c6Descs : Nat → Option MessageDescriptor :=
  fun i => if i = 0 then Option.some helloInDesc else Option.none

/-- The concrete frame used by the C6 witness: payload_length 0, ID 0. -/
def c6Stream : List Nat := [0, 0, 0, 0, 0, 0, 0, 0]

/-- The concrete handler oracle used by the C6 witness. -/
def c6Handler : Nat → List Nat → Option Ipc.ConnErr :=
  fun _ _ => Option.none

/-- Witness for C6: an established connection, one registered inbound
descriptor without a handler at ID 0, an 8-byte frame with ID 0 and an
empty body. -/
theorem c6_dispatch_guards_witness :
    (8 ≤ c6Stream.length) ∧ (leVal (c6Stream.take 4) ≤ 16) ∧
    ((Ipc.nextMessage 16 .terminate c6Descs .established c6Handler
        c6Stream).result.isSome ↔
      (c6Descs (leVal ((c6Stream.drop 4).take 4)) = Option.none ∨
       ∃ d, c6Descs (leVal ((c6Stream.drop 4).take 4)) = Option.some d ∧
         (d.message.direction = .outbound ∨
          (Ipc.ConnState.established = .waitHello ∧ d.internal = false) ∨
          (d.hasHandler = true ∧
            ((c6Stream.drop 8).length < leVal (c6Stream.take 4) ∨
             (c6Handler (leVal ((c6Stream.drop 4).take 4))
               ((c6Stream.drop 8).take
                 (leVal (c6Stream.take 4)))).isSome))))) :=
  ⟨by decide, by decide,
   And.left (c6_dispatch_guards 16 .terminate c6Descs .established c6Handler
     c6Stream (by decide) (by decide))⟩

/-! ## C9 -/

/-- **C9.** For a frame whose `payload_length` exceeds `MaxMessageSize`
(and whose header read succeeds, the whole body being available): under
policy `Discard`, `nextMessage` consumes exactly the 8 header bytes plus
`payload_length` body bytes, returns success (`HandleConnection` simply
loops to the next header), and invokes no handler (so nothing can change
the connection state); under policy `Terminate` it returns the
`ErrMsgLength` (*MessageTooLarge*) error, on which `HandleConnection`
breaks and closes the connection; and under either policy the outcome is
the same for every registry — the size check precedes the
message-ID resolution. -/
theorem c9_overflow_policy (maxSize : Nat)
    (descs : Nat → Option MessageDescriptor) (state : Ipc.ConnState)
    (runHandler : Nat → List Nat → Option Ipc.ConnErr) (stream : List Nat)
    (h8 : 8 ≤ stream.length)
    (hbig : leVal (stream.take 4) > maxSize)
    (_havail : 8 + leVal (stream.take 4) ≤ stream.length) :
    ((Ipc.nextMessage maxSize .discard descs state runHandler
        stream).result = Option.none) ∧
    ((Ipc.nextMessage maxSize .discard descs state runHandler
        stream).rest = stream.drop (8 + leVal (stream.take 4))) ∧
    ((Ipc.nextMessage maxSize .discard descs state runHandler
        stream).rest.length = stream.length - (8 + leVal (stream.take 4))) ∧
    ((Ipc.nextMessage maxSize .discard descs state runHandler
        stream).handlerInvoked = false) ∧
    ((Ipc.nextMessage maxSize .terminate descs state runHandler
        stream).result = Option.some .msgLength) ∧
    (∀ (policy : Ipc.MessageOverflowPolicy)
       (descs1 descs2 : Nat → Option MessageDescriptor),
      Ipc.nextMessage maxSize policy descs1 state runHandler stream =
        Ipc.nextMessage maxSize policy descs2 state runHandler stream) := by
  have hred : ∀ (policy : Ipc.MessageOverflowPolicy)
      (ds : Nat → Option MessageDescriptor),
      Ipc.nextMessage maxSize policy ds state runHandler stream =
      (match policy with
       | .discard =>
         { result := Option.none,
           rest := (stream.drop 8).drop (leVal (stream.take 4)),
           handlerInvoked := false }
       | .terminate =>
         { result := Option.some .msgLength, rest := stream.drop 8,
           handlerInvoked := false }) := by
    intro policy ds
    rw [Ipc.nextMessage, Ipc.readHeader,
      if_neg (by omega : ¬ stream.length < 8)]
    simp only
    rw [if_pos hbig]
  have hdd : (stream.drop 8).drop (leVal (stream.take 4)) =
      stream.drop (8 + leVal (stream.take 4)) := by
    rw [List.drop_drop]
  refine ⟨?_, ?_, ?_, ?_, ?_, ?_⟩
  · rw [hred .discard descs]
  · rw [hred .discard descs]
    exact hdd
  · rw [hred .discard descs]
    simp only [hdd, List.length_drop]
  · rw [hred .discard descs]
  · rw [hred .terminate descs]
  · intro policy descs1 descs2
    rw [hred policy descs1, hred policy descs2]

/-- Witness for C9: `MaxMessageSize = 4`, a header announcing an 8-byte
body, and exactly 8 further bytes on the stream. -/
theorem c9_overflow_policy_witness :
    (8 ≤ ([8, 0, 0, 0, 0, 0, 0, 0, 1, 2, 3, 4, 5, 6, 7, 8] :
        List Nat).length ∧
     leVal (([8, 0, 0, 0, 0, 0, 0, 0, 1, 2, 3, 4, 5, 6, 7, 8] :
        List Nat).take 4) > 4 ∧
     8 + leVal (([8, 0, 0, 0, 0, 0, 0, 0, 1, 2, 3, 4, 5, 6, 7, 8] :
        List Nat).take 4) ≤
       ([8, 0, 0, 0, 0, 0, 0, 0, 1, 2, 3, 4, 5, 6, 7, 8] :
        List Nat).length) ∧
    (Ipc.nextMessage 4 .discard (fun _ => Option.none) .established
        c6Handler
        [8, 0, 0, 0, 0, 0, 0, 0, 1, 2, 3, 4, 5, 6, 7, 8]).result =
      Option.none :=
  ⟨⟨by decide, by decide, by decide⟩,
   And.left (c9_overflow_policy 4 (fun _ => Option.none) .established
     c6Handler [8, 0, 0, 0, 0, 0, 0, 0, 1, 2, 3, 4, 5, 6, 7, 8]
     (by decide) (by decide) (by decide))⟩

/-! ## C10 -/

/-- A one-field scalar descriptor (`x : int32`, required). -/
def c10Desc : MessageDescriptor :=
  .mk 0 (.mk .inbound "m" [.mk "x" .int32T .nilEx false]) 0 false false

/-- **C10 (counterexample).** On the empty buffer the two decoders
disagree on success: the reflect-based decoder propagates the
`OutOfBounds` of the `int32` field read, while the experimental decoder
discards the result of `r.decodeSingle(...)` and reports success (with
the record untouched). -/
theorem c10_counterexample :
    (Encoder.Reader.Decode 10 (Encoder.NewReader [] c10Desc)
        (.structV [("x", .intV 0)])).2.2 =
      Option.some Encoder.EErr.outOfBounds ∧
    (Exp.Reader.Decode (Exp.NewReader []) c10Desc
        (.structV [("x", .intV 0)])).2.2 = Option.none := by
  exact ⟨rfl, rfl⟩

/-- The simulation relation between the reflect decoder's reader (cursor
plus constant `len`) and the exp decoder's reader (cursor plus remaining
`availableLen`): same buffer, same cursor, `availableLen = len - pos`,
and the C8 well-formedness of the reflect reader. -/
def ReaderRel (r : Encoder.Reader) (xr : Exp.Reader) : Prop :=
  xr.buffer = r.buffer ∧ xr.pos = r.pos ∧
  xr.availableLen = r.len - r.pos ∧ r.len = r.buffer.length ∧
  r.pos ≤ r.len

theorem readBytes_rel (r : Encoder.Reader) (xr : Exp.Reader) (n : Nat)
    (h : ReaderRel r xr) :
    (xr.ReadBytes n).2 = (r.ReadBytes n).2 ∧
    ReaderRel (r.ReadBytes n).1 (xr.ReadBytes n).1 ∧
    (∀ e, (r.ReadBytes n).2 = Except.error e →
      (r.ReadBytes n).1 = r ∧ (xr.ReadBytes n).1 = xr) := by
  obtain ⟨hbuf, hpos, hav, hlen, hple⟩ := h
  unfold Encoder.Reader.ReadBytes Exp.Reader.ReadBytes
  by_cases hgt : n > r.len - r.pos
  · rw [if_pos hgt, if_pos (by omega : n > xr.availableLen)]
    exact ⟨rfl, ⟨hbuf, hpos, hav, hlen, hple⟩, fun _ _ => ⟨rfl, rfl⟩⟩
  · rw [if_neg hgt, if_neg (by omega : ¬ n > xr.availableLen)]
    have hresl : ((r.buffer.drop r.pos).take n).length = n := by
      simp [List.length_take, List.length_drop]
      omega
    rw [hbuf, hpos]
    simp only [hresl, if_neg (by omega : ¬ n ≠ n)]
    refine ⟨trivial, ⟨rfl, rfl, by simp [hav]; omega, hlen, by simp; omega⟩,
      fun e he => by simp at he⟩

theorem readUInt16_rel (r : Encoder.Reader) (xr : Exp.Reader)
    (h : ReaderRel r xr) :
    (xr.ReadUInt16).2 = (r.ReadUInt16).2 ∧
    ReaderRel (r.ReadUInt16).1 (xr.ReadUInt16).1 := by
  have hb := readBytes_rel r xr 2 h
  unfold Encoder.Reader.ReadUInt16 Exp.Reader.ReadUInt16
  rcases hE : r.ReadBytes 2 with ⟨r1, res⟩
  rcases hX : xr.ReadBytes 2 with ⟨x1, resx⟩
  rw [hE, hX] at hb
  obtain ⟨h1, h2, -⟩ := hb
  simp only at h1 h2
  subst h1
  cases resx <;> simp [h2]

theorem readInt16_rel (r : Encoder.Reader) (xr : Exp.Reader)
    (h : ReaderRel r xr) :
    (xr.ReadInt16).2 = (r.ReadInt16).2 ∧
    ReaderRel (r.ReadInt16).1 (xr.ReadInt16).1 := by
  have hb := readBytes_rel r xr 2 h
  unfold Encoder.Reader.ReadInt16 Exp.Reader.ReadInt16
  rcases hE : r.ReadBytes 2 with ⟨r1, res⟩
  rcases hX : xr.ReadBytes 2 with ⟨x1, resx⟩
  rw [hE, hX] at hb
  obtain ⟨h1, h2, -⟩ := hb
  simp only at h1 h2
  subst h1
  cases resx <;> simp [h2]

theorem readUInt32_rel (r : Encoder.Reader) (xr : Exp.Reader)
    (h : ReaderRel r xr) :
    (xr.ReadUInt32).2 = (r.ReadUInt32).2 ∧
    ReaderRel (r.ReadUInt32).1 (xr.ReadUInt32).1 := by
  have hb := readBytes_rel r xr 4 h
  unfold Encoder.Reader.ReadUInt32 Exp.Reader.ReadUInt32
  rcases hE : r.ReadBytes 4 with ⟨r1, res⟩
  rcases hX : xr.ReadBytes 4 with ⟨x1, resx⟩
  rw [hE, hX] at hb
  obtain ⟨h1, h2, -⟩ := hb
  simp only at h1 h2
  subst h1
  cases resx <;> simp [h2]

theorem readInt32_rel (r : Encoder.Reader) (xr : Exp.Reader)
    (h : ReaderRel r xr) :
    (xr.ReadInt32).2 = (r.ReadInt32).2 ∧
    ReaderRel (r.ReadInt32).1 (xr.ReadInt32).1 := by
  have hb := readBytes_rel r xr 4 h
  unfold Encoder.Reader.ReadInt32 Exp.Reader.ReadInt32
  rcases hE : r.ReadBytes 4 with ⟨r1, res⟩
  rcases hX : xr.ReadBytes 4 with ⟨x1, resx⟩
  rw [hE, hX] at hb
  obtain ⟨h1, h2, -⟩ := hb
  simp only at h1 h2
  subst h1
  cases resx <;> simp [h2]

theorem readUInt64_rel (r : Encoder.Reader) (xr : Exp.Reader)
    (h : ReaderRel r xr) :
    (xr.ReadUInt64).2 = (r.ReadUInt64).2 ∧
    ReaderRel (r.ReadUInt64).1 (xr.ReadUInt64).1 := by
  have hb := readBytes_rel r xr 8 h
  unfold Encoder.Reader.ReadUInt64 Exp.Reader.ReadUInt64
  rcases hE : r.ReadBytes 8 with ⟨r1, res⟩
  rcases hX : xr.ReadBytes 8 with ⟨x1, resx⟩
  rw [hE, hX] at hb
  obtain ⟨h1, h2, -⟩ := hb
  simp only at h1 h2
  subst h1
  cases resx <;> simp [h2]

theorem readInt64_rel (r : Encoder.Reader) (xr : Exp.Reader)
    (h : ReaderRel r xr) :
    (xr.ReadInt64).2 = (r.ReadInt64).2 ∧
    ReaderRel (r.ReadInt64).1 (xr.ReadInt64).1 := by
  have hb := readBytes_rel r xr 8 h
  unfold Encoder.Reader.ReadInt64 Exp.Reader.ReadInt64
  rcases hE : r.ReadBytes 8 with ⟨r1, res⟩
  rcases hX : xr.ReadBytes 8 with ⟨x1, resx⟩
  rw [hE, hX] at hb
  obtain ⟨h1, h2, -⟩ := hb
  simp only at h1 h2
  subst h1
  cases resx <;> simp [h2]

/-- The scalar/binary field types: everything except the recursive
`Object` and `Array`. -/
def isScalarBinary : FieldType → Bool
  | .objectT => false
  | .arrayT => false
  | _ => true

/-- The record update performed after a field decode: write the slot back
under its protocol name when a value was produced, otherwise leave the
record unchanged. -/
def updSlot (slots : List (String × Value)) (name : String) :
    Option Value → List (String × Value)
  | Option.some nv => mapInsert slots name nv
  | Option.none => slots

/-- One scalar/binary field: if the reflect decoder's `decodeSingle`
succeeds, the exp decoder's `decodeSingle` performs the same cursor
movement and the same slot write and also succeeds (the written-back
record of the reflect path equals the exp path's in-place update, and a
written slot implies the binding existed). -/
theorem c10_single (fuel : Nat) (field : MessageField)
    (r r' : Encoder.Reader) (xr : Exp.Reader)
    (slots : List (String × Value)) (f' : Option Value)
    (hrel : ReaderRel r xr) (hsb : isScalarBinary field.type = true)
    (h : Encoder.decodeSingle fuel r field (mapLookup slots field.name) =
      (r', f', Option.none)) :
    ∃ xr', Exp.decodeSingle xr field slots =
      (xr', updSlot slots field.name f', Option.none) ∧ ReaderRel r' xr' ∧
      (f'.isSome → (mapLookup slots field.name).isSome) := by
  cases fuel with
  | zero => simp [Encoder.decodeSingle] at h
  | succ fl =>
  obtain ⟨fname, ftype, fextra, fopt⟩ := field
  cases ftype with
  | objectT => simp [isScalarBinary, MessageField.type] at hsb
  | arrayT => simp [isScalarBinary, MessageField.type] at hsb
  | fixedBinary =>
    simp only [Encoder.decodeSingle, MessageField.type, MessageField.extra,
      MessageField.name] at h ⊢
    cases fextra with
    | intEx fLen =>
      simp only at h
      have hrb := readBytes_rel r xr fLen hrel
      rcases hrd : r.ReadBytes fLen with ⟨r1, res⟩
      rcases hrx : xr.ReadBytes fLen with ⟨x1, resx⟩
      rw [hrd] at h
      rw [hrd, hrx] at hrb
      obtain ⟨hres, hrel1, -⟩ := hrb
      simp only at hres hrel1
      subst hres
      cases resx with
      | error e => simp at h
      | ok bytes =>
        simp only [Exp.decodeSingle, MessageField.type, MessageField.extra,
          MessageField.name]
        rw [hrx]
        simp only at h ⊢
        rcases hf : mapLookup slots fname with _ | fv
        · rw [hf] at h
          simp only [Prod.mk.injEq] at h
          obtain ⟨h1, h2, -⟩ := h
          subst h1
          subst h2
          exact ⟨x1, by simp [updSlot, hf], hrel1, by simp⟩
        · rw [hf] at h
          cases fv with
          | bytes old =>
            simp only [Encoder.setBytes] at h
            simp only [Prod.mk.injEq] at h
            obtain ⟨h1, h2, -⟩ := h
            subst h1
            subst h2
            exact ⟨x1, by simp [updSlot, hf], hrel1, by simp [hf]⟩
          | uintV v => simp [Encoder.setBytes] at h
          | intV v => simp [Encoder.setBytes] at h
          | structV v => simp [Encoder.setBytes] at h
          | arrayV v => simp [Encoder.setBytes] at h
    | nilEx => simp at h
    | descEx d => simp at h
    | fieldEx e => simp at h
    | msgEx m => simp at h
  | dynamicBinary =>
    simp only [Encoder.decodeSingle, MessageField.type,
      MessageField.name] at h ⊢
    have hrd0 := readUInt16_rel r xr hrel
    rcases hrd : r.ReadUInt16 with ⟨r1, res⟩
    rcases hrx : xr.ReadUInt16 with ⟨x1, resx⟩
    rw [hrd] at h
    rw [hrd, hrx] at hrd0
    obtain ⟨hres, hrel1⟩ := hrd0
    simp only at hres hrel1
    subst hres
    cases resx with
    | error e => simp at h
    | ok len =>
      simp only [Exp.decodeSingle, MessageField.type, MessageField.name]
      rw [hrx]
      simp only at h ⊢
      have hrb := readBytes_rel r1 x1 len hrel1
      rcases hrd2 : r1.ReadBytes len with ⟨r2, res2⟩
      rcases hrx2 : x1.ReadBytes len with ⟨x2, resx2⟩
      rw [hrd2] at h
      rw [hrd2, hrx2] at hrb
      obtain ⟨hres2, hrel2, -⟩ := hrb
      simp only at hres2 hrel2
      subst hres2
      cases resx2 with
      | error e => simp at h
      | ok bytes =>
        simp only at h ⊢
        rcases hf : mapLookup slots fname with _ | fv
        · rw [hf] at h
          simp only [Prod.mk.injEq] at h
          obtain ⟨h1, h2, -⟩ := h
          subst h1
          subst h2
          exact ⟨x2, by simp [updSlot, hf], hrel2, by simp⟩
        · rw [hf] at h
          cases fv with
          | bytes old =>
            simp only [Encoder.setBytes] at h
            simp only [Prod.mk.injEq] at h
            obtain ⟨h1, h2, -⟩ := h
            subst h1
            subst h2
            exact ⟨x2, by simp [updSlot, hf], hrel2, by simp [hf]⟩
          | uintV v => simp [Encoder.setBytes] at h
          | intV v => simp [Encoder.setBytes] at h
          | structV v => simp [Encoder.setBytes] at h
          | arrayV v => simp [Encoder.setBytes] at h
  | longBinary =>
    simp only [Encoder.decodeSingle, MessageField.type,
      MessageField.name] at h ⊢
    have hrd0 := readUInt32_rel r xr hrel
    rcases hrd : r.ReadUInt32 with ⟨r1, res⟩
    rcases hrx : xr.ReadUInt32 with ⟨x1, resx⟩
    rw [hrd] at h
    rw [hrd, hrx] at hrd0
    obtain ⟨hres, hrel1⟩ := hrd0
    simp only at hres hrel1
    subst hres
    cases resx with
    | error e => simp at h
    | ok len =>
      simp only [Exp.decodeSingle, MessageField.type, MessageField.name]
      rw [hrx]
      simp only at h ⊢
      have hrb := readBytes_rel r1 x1 len hrel1
      rcases hrd2 : r1.ReadBytes len with ⟨r2, res2⟩
      rcases hrx2 : x1.ReadBytes len with ⟨x2, resx2⟩
      rw [hrd2] at h
      rw [hrd2, hrx2] at hrb
      obtain ⟨hres2, hrel2, -⟩ := hrb
      simp only at hres2 hrel2
      subst hres2
      cases resx2 with
      | error e => simp at h
      | ok bytes =>
        simp only at h ⊢
        rcases hf : mapLookup slots fname with _ | fv
        · rw [hf] at h
          simp only [Prod.mk.injEq] at h
          obtain ⟨h1, h2, -⟩ := h
          subst h1
          subst h2
          exact ⟨x2, by simp [updSlot, hf], hrel2, by simp⟩
        · rw [hf] at h
          cases fv with
          | bytes old =>
            simp only [Encoder.setBytes] at h
            simp only [Prod.mk.injEq] at h
            obtain ⟨h1, h2, -⟩ := h
            subst h1
            subst h2
            exact ⟨x2, by simp [updSlot, hf], hrel2, by simp [hf]⟩
          | uintV v => simp [Encoder.setBytes] at h
          | intV v => simp [Encoder.setBytes] at h
          | structV v => simp [Encoder.setBytes] at h
          | arrayV v => simp [Encoder.setBytes] at h
  | uint64T =>
    simp only [Encoder.decodeSingle, MessageField.type,
      MessageField.name] at h ⊢
    have hrd0 := readUInt64_rel r xr hrel
    rcases hrd : r.ReadUInt64 with ⟨r1, res⟩
    rcases hrx : xr.ReadUInt64 with ⟨x1, resx⟩
    rw [hrd] at h
    rw [hrd, hrx] at hrd0
    obtain ⟨hres, hrel1⟩ := hrd0
    simp only at hres hrel1
    subst hres
    cases resx with
    | error e => simp at h
    | ok num =>
      simp only [Exp.decodeSingle, MessageField.type, MessageField.name]
      rw [hrx]
      simp only at h ⊢
      rcases hf : mapLookup slots fname with _ | fv
      · rw [hf] at h
        simp only [Prod.mk.injEq] at h
        obtain ⟨h1, h2, -⟩ := h
        subst h1
        subst h2
        exact ⟨x1, by simp [updSlot, hf], hrel1, by simp⟩
      · rw [hf] at h
        cases fv with
        | uintV old =>
          simp only [Prod.mk.injEq] at h
          obtain ⟨h1, h2, -⟩ := h
          subst h1
          subst h2
          exact ⟨x1, by simp [updSlot, hf], hrel1, by simp [hf]⟩
                | bytes v => simp at h
        | intV v => simp at h
        | structV v => simp at h
        | arrayV v => simp at h
  | int64T =>
    simp only [Encoder.decodeSingle, MessageField.type,
      MessageField.name] at h ⊢
    have hrd0 := readInt64_rel r xr hrel
    rcases hrd : r.ReadInt64 with ⟨r1, res⟩
    rcases hrx : xr.ReadInt64 with ⟨x1, resx⟩
    rw [hrd] at h
    rw [hrd, hrx] at hrd0
    obtain ⟨hres, hrel1⟩ := hrd0
    simp only at hres hrel1
    subst hres
    cases resx with
    | error e => simp at h
    | ok num =>
      simp only [Exp.decodeSingle, MessageField.type, MessageField.name]
      rw [hrx]
      simp only at h ⊢
      rcases hf : mapLookup slots fname with _ | fv
      · rw [hf] at h
        simp only [Prod.mk.injEq] at h
        obtain ⟨h1, h2, -⟩ := h
        subst h1
        subst h2
        exact ⟨x1, by simp [updSlot, hf], hrel1, by simp⟩
      · rw [hf] at h
        cases fv with
        | intV old =>
          simp only [Prod.mk.injEq] at h
          obtain ⟨h1, h2, -⟩ := h
          subst h1
          subst h2
          exact ⟨x1, by simp [updSlot, hf], hrel1, by simp [hf]⟩
                | bytes v => simp at h
        | uintV v => simp at h
        | structV v => simp at h
        | arrayV v => simp at h
  | uint32T =>
    simp only [Encoder.decodeSingle, MessageField.type,
      MessageField.name] at h ⊢
    have hrd0 := readUInt32_rel r xr hrel
    rcases hrd : r.ReadUInt32 with ⟨r1, res⟩
    rcases hrx : xr.ReadUInt32 with ⟨x1, resx⟩
    rw [hrd] at h
    rw [hrd, hrx] at hrd0
    obtain ⟨hres, hrel1⟩ := hrd0
    simp only at hres hrel1
    subst hres
    cases resx with
    | error e => simp at h
    | ok num =>
      simp only [Exp.decodeSingle, MessageField.type, MessageField.name]
      rw [hrx]
      simp only at h ⊢
      rcases hf : mapLookup slots fname with _ | fv
      · rw [hf] at h
        simp only [Prod.mk.injEq] at h
        obtain ⟨h1, h2, -⟩ := h
        subst h1
        subst h2
        exact ⟨x1, by simp [updSlot, hf], hrel1, by simp⟩
      · rw [hf] at h
        cases fv with
        | uintV old =>
          simp only [Prod.mk.injEq] at h
          obtain ⟨h1, h2, -⟩ := h
          subst h1
          subst h2
          exact ⟨x1, by simp [updSlot, hf], hrel1, by simp [hf]⟩
                | bytes v => simp at h
        | intV v => simp at h
        | structV v => simp at h
        | arrayV v => simp at h
  | int32T =>
    simp only [Encoder.decodeSingle, MessageField.type,
      MessageField.name] at h ⊢
    have hrd0 := readInt32_rel r xr hrel
    rcases hrd : r.ReadInt32 with ⟨r1, res⟩
    rcases hrx : xr.ReadInt32 with ⟨x1, resx⟩
    rw [hrd] at h
    rw [hrd, hrx] at hrd0
    obtain ⟨hres, hrel1⟩ := hrd0
    simp only at hres hrel1
    subst hres
    cases resx with
    | error e => simp at h
    | ok num =>
      simp only [Exp.decodeSingle, MessageField.type, MessageField.name]
      rw [hrx]
      simp only at h ⊢
      rcases hf : mapLookup slots fname with _ | fv
      · rw [hf] at h
        simp only [Prod.mk.injEq] at h
        obtain ⟨h1, h2, -⟩ := h
        subst h1
        subst h2
        exact ⟨x1, by simp [updSlot, hf], hrel1, by simp⟩
      · rw [hf] at h
        cases fv with
        | intV old =>
          simp only [Prod.mk.injEq] at h
          obtain ⟨h1, h2, -⟩ := h
          subst h1
          subst h2
          exact ⟨x1, by simp [updSlot, hf], hrel1, by simp [hf]⟩
                | bytes v => simp at h
        | uintV v => simp at h
        | structV v => simp at h
        | arrayV v => simp at h
  | uint16T =>
    simp only [Encoder.decodeSingle, MessageField.type,
      MessageField.name] at h ⊢
    have hrd0 := readUInt16_rel r xr hrel
    rcases hrd : r.ReadUInt16 with ⟨r1, res⟩
    rcases hrx : xr.ReadUInt16 with ⟨x1, resx⟩
    rw [hrd] at h
    rw [hrd, hrx] at hrd0
    obtain ⟨hres, hrel1⟩ := hrd0
    simp only at hres hrel1
    subst hres
    cases resx with
    | error e => simp at h
    | ok num =>
      simp only [Exp.decodeSingle, MessageField.type, MessageField.name]
      rw [hrx]
      simp only at h ⊢
      rcases hf : mapLookup slots fname with _ | fv
      · rw [hf] at h
        simp only [Prod.mk.injEq] at h
        obtain ⟨h1, h2, -⟩ := h
        subst h1
        subst h2
        exact ⟨x1, by simp [updSlot, hf], hrel1, by simp⟩
      · rw [hf] at h
        cases fv with
        | uintV old =>
          simp only [Prod.mk.injEq] at h
          obtain ⟨h1, h2, -⟩ := h
          subst h1
          subst h2
          exact ⟨x1, by simp [updSlot, hf], hrel1, by simp [hf]⟩
                | bytes v => simp at h
        | intV v => simp at h
        | structV v => simp at h
        | arrayV v => simp at h
  | int16T =>
    simp only [Encoder.decodeSingle, MessageField.type,
      MessageField.name] at h ⊢
    have hrd0 := readInt16_rel r xr hrel
    rcases hrd : r.ReadInt16 with ⟨r1, res⟩
    rcases hrx : xr.ReadInt16 with ⟨x1, resx⟩
    rw [hrd] at h
    rw [hrd, hrx] at hrd0
    obtain ⟨hres, hrel1⟩ := hrd0
    simp only at hres hrel1
    subst hres
    cases resx with
    | error e => simp at h
    | ok num =>
      simp only [Exp.decodeSingle, MessageField.type, MessageField.name]
      rw [hrx]
      simp only at h ⊢
      rcases hf : mapLookup slots fname with _ | fv
      · rw [hf] at h
        simp only [Prod.mk.injEq] at h
        obtain ⟨h1, h2, -⟩ := h
        subst h1
        subst h2
        exact ⟨x1, by simp [updSlot, hf], hrel1, by simp⟩
      · rw [hf] at h
        cases fv with
        | intV old =>
          simp only [Prod.mk.injEq] at h
          obtain ⟨h1, h2, -⟩ := h
          subst h1
          subst h2
          exact ⟨x1, by simp [updSlot, hf], hrel1, by simp [hf]⟩
                | bytes v => simp at h
        | uintV v => simp at h
        | structV v => simp at h
        | arrayV v => simp at h

/-- The field walk: if the reflect decoder's loop succeeds over
scalar/binary fields, the exp decoder's loop produces the same record
and also succeeds, with the readers staying in lockstep. -/
theorem c10_loop (fields : List MessageField) :
    ∀ (fuel : Nat) (r r' : Encoder.Reader) (xr : Exp.Reader)
      (optList : List Nat) (optBytes optCounter : Nat)
      (slots slots' : List (String × Value)),
    ReaderRel r xr →
    fields.all (fun f => isScalarBinary f.type) = true →
    Encoder.decodeFieldLoop fuel r optList optBytes optCounter slots
      fields = (r', slots', Option.none) →
    ∃ xr', Exp.decodeLoop xr optList optBytes optCounter slots fields =
      (xr', slots', Option.none) ∧ ReaderRel r' xr' := by
  induction fields with
  | nil =>
    intro fuel r r' xr optList optBytes optCounter slots slots' hrel hall h
    cases fuel with
    | zero => simp [Encoder.decodeFieldLoop] at h
    | succ fl =>
      simp only [Encoder.decodeFieldLoop, Prod.mk.injEq] at h
      obtain ⟨h1, h2, -⟩ := h
      subst h1
      subst h2
      exact ⟨xr, rfl, hrel⟩
  | cons field rest ih =>
    intro fuel r r' xr optList optBytes optCounter slots slots' hrel hall h
    simp only [List.all_cons, Bool.and_eq_true] at hall
    obtain ⟨hsb, hall⟩ := hall
    cases fuel with
    | zero => simp [Encoder.decodeFieldLoop] at h
    | succ fl =>
      rw [Encoder.decodeFieldLoop] at h
      rw [Exp.decodeLoop]
      cases hopt : field.optional with
      | true =>
        rw [hopt] at h
        simp only [if_true] at h ⊢
        by_cases hge : optCounter ≥ optBytes
        · rw [if_pos hge] at h ⊢
          simp at h
        · rw [if_neg hge] at h ⊢
          cases hbit : Encoder.GetOpt optCounter optList with
          | false =>
            rw [hbit] at h
            simp only [Bool.not_false, if_true] at h ⊢
            cases fl with
            | zero => simp [Encoder.decodeFieldLoop] at h
            | succ fl2 =>
              exact ih (fl2 + 1) r r' xr optList optBytes (optCounter + 1)
                slots slots' hrel hall h
          | true =>
            rw [hbit] at h
            simp only [Bool.not_true, if_false] at h ⊢
            cases fl with
            | zero => simp [Encoder.decodeFieldStep] at h
            | succ fl2 =>
              rw [Encoder.decodeFieldStep] at h
              rcases hds : Encoder.decodeSingle fl2 r field
                  (mapLookup slots field.name) with ⟨r1, f1, e1⟩
              rw [hds] at h
              cases e1 with
              | some e => simp at h
              | none =>
                obtain ⟨xr1, hxs, hrel1, hb⟩ :=
                  c10_single fl2 field r r1 xr slots f1 hrel hsb hds
                cases f1 with
                | none =>
                  simp only at h
                  rw [hxs]
                  simp only [updSlot]
                  exact ih fl2 r1 r' xr1 optList optBytes (optCounter + 1)
                    slots slots' hrel1 hall h
                | some nv =>
                  have hbb : (mapLookup slots field.name).isSome = true :=
                    hb (by simp)
                  simp only at h
                  rw [if_pos hbb] at h
                  rw [hxs]
                  simp only [updSlot]
                  exact ih fl2 r1 r' xr1 optList optBytes (optCounter + 1)
                    (mapInsert slots field.name nv) slots' hrel1 hall h
      | false =>
        rw [hopt] at h
        simp only [Bool.false_eq_true, if_false] at h ⊢
        cases fl with
        | zero => simp [Encoder.decodeFieldStep] at h
        | succ fl2 =>
          rw [Encoder.decodeFieldStep] at h
          rcases hds : Encoder.decodeSingle fl2 r field
              (mapLookup slots field.name) with ⟨r1, f1, e1⟩
          rw [hds] at h
          cases e1 with
          | some e => simp at h
          | none =>
            obtain ⟨xr1, hxs, hrel1, hb⟩ :=
              c10_single fl2 field r r1 xr slots f1 hrel hsb hds
            cases f1 with
            | none =>
              simp only at h
              rw [hxs]
              simp only [updSlot]
              exact ih fl2 r1 r' xr1 optList optBytes optCounter
                slots slots' hrel1 hall h
            | some nv =>
              have hbb : (mapLookup slots field.name).isSome = true :=
                hb (by simp)
              simp only at h
              rw [if_pos hbb] at h
              rw [hxs]
              simp only [updSlot]
              exact ih fl2 r1 r' xr1 optList optBytes optCounter
                (mapInsert slots field.name nv) slots' hrel1 hall h

/-- **C10 (amended).** For a descriptor containing only scalar and binary
field types, whenever the reflect-based decoder succeeds the
experimental unsafe-pointer decoder succeeds on the same buffer and
record shape with the identical resulting record and the identical final
cursor.  (The converse fails: the exp decoder ignores the result of each
`decodeSingle`, so on malformed input it can report success where the
reflect decoder reports the per-field error — see the counterexample.) -/
theorem c10_amended (desc : MessageDescriptor) (buffer : List Nat)
    (slots : List (String × Value)) (v' : Value) (fuel : Nat)
    (r' : Encoder.Reader)
    (hsb : desc.message.fields.all (fun f => isScalarBinary f.type) = true)
    (h : Encoder.Reader.Decode fuel (Encoder.NewReader buffer desc)
      (.structV slots) = (r', v', Option.none)) :
    ∃ xr', Exp.Reader.Decode (Exp.NewReader buffer) desc
      (.structV slots) = (xr', v', Option.none) ∧ xr'.pos = r'.pos := by
  rw [Encoder.Reader.Decode] at h
  cases fuel with
  | zero => simp [Encoder.decodeStruct] at h
  | succ fl =>
    rw [Encoder.decodeStruct] at h
    rw [Exp.Reader.Decode]
    cases hdup : hasDupNames slots with
    | true =>
      rw [hdup] at h
      simp at h
    | false =>
      rw [hdup] at h
      simp only [Bool.false_eq_true, if_false] at h ⊢
      have hrel0 : ReaderRel
          { Encoder.NewReader buffer desc with pos := 0 }
          (Exp.NewReader buffer) := by
        refine ⟨rfl, rfl, ?_, rfl, ?_⟩ <;>
          simp [Encoder.NewReader, Exp.NewReader]
      have hrb := readBytes_rel
        { Encoder.NewReader buffer desc with pos := 0 }
        (Exp.NewReader buffer)
        ((Encoder.NewReader buffer desc).descriptor.OptFlagLength) hrel0
      rcases hrd : ({ Encoder.NewReader buffer desc with pos := 0
          } : Encoder.Reader).ReadBytes
          ((Encoder.NewReader buffer desc).descriptor.OptFlagLength)
        with ⟨r1, res⟩
      rcases hrx : (Exp.NewReader buffer).ReadBytes
          ((Encoder.NewReader buffer desc).descriptor.OptFlagLength)
        with ⟨x1, resx⟩
      rw [hrd] at h
      rw [hrd, hrx] at hrb
      obtain ⟨hres, hrel1, -⟩ := hrb
      simp only at hres hrel1
      subst hres
      have hdesc : (Encoder.NewReader buffer desc).descriptor = desc := rfl
      rw [hdesc] at h hrx
      cases resx with
      | error e => simp at h
      | ok optList =>
        rw [hrx]
        simp only at h ⊢
        rcases hloop : Encoder.decodeFieldLoop fl r1 optList
            desc.OptFlagLength 0 slots desc.message.fields
          with ⟨r2, slots2, e2⟩
        rw [hloop] at h
        cases e2 with
        | some e => simp at h
        | none =>
          simp only [Prod.mk.injEq] at h
          obtain ⟨h1, h2, -⟩ := h
          obtain ⟨xr2, hxl, hrel2⟩ := c10_loop desc.message.fields fl r1 r2
            (x1) optList desc.OptFlagLength 0 slots slots2 hrel1 hsb hloop
          rw [hxl]
          subst h1
          exact ⟨xr2, by simp [← h2], hrel2.2.1⟩

/-- The reflect reader's final state for the C10 witness run. -/
def c10FinalReader : Encoder.Reader :=
  { buffer := [7, 0, 0, 0], descriptor := c10Desc, pos := 4, len := 4 }

/-- Witness for C10 (amended) at a one-field `int32` descriptor and the
body `07 00 00 00`. -/
theorem c10_amended_witness :
    (c10Desc.message.fields.all (fun f => isScalarBinary f.type) = true) ∧
    (Encoder.Reader.Decode 10 (Encoder.NewReader [7, 0, 0, 0] c10Desc)
        (.structV [("x", .intV 0)]) =
      (c10FinalReader, .structV [("x", .intV 7)], Option.none)) ∧
    (∃ xr', Exp.Reader.Decode (Exp.NewReader [7, 0, 0, 0]) c10Desc
        (.structV [("x", .intV 0)]) =
      (xr', .structV [("x", .intV 7)], Option.none) ∧
      xr'.pos = c10FinalReader.pos) :=
  ⟨by rfl, by rfl,
   c10_amended c10Desc [7, 0, 0, 0] [("x", .intV 0)]
     (.structV [("x", .intV 7)]) 10 c10FinalReader (by rfl) (by rfl)⟩
